import Mathlib

/-!
# Registration lifecycle of `rocserv.ServBaseV2` (util/service/service.go)

A shallow embedding of the registration state machine, the shutdown sequence and the
manual-control read-modify-write of `ServBaseV2`, together with the part of the etcd v2
keys API that this code drives.

Conventions of the embedding:

* every store request takes a `fault` flag chosen by the environment: a faulted request
  returns an error and leaves the store as it was;
* time is a clock in whole seconds; `time.Sleep` advances it, and so do the delays of a
  schedule and the clock ticks of the interleaving;
* every request the code issues is appended to a log, so that "issues a Set" is a
  statement about the log;
* a goroutine's captured variables are an explicit record (`RegLoop`).
-/

namespace Rocserv

/-! ## The etcd v2 keys API, as far as service.go uses it -/

/-- The errors the code can observe. The first four are answers of the store, `json` is an
error of `encoding/json`. -/
inductive Err where
  | unavailable
  | keyNotFound
  | nodeExist
  | refreshValue
  | json (msg : String)
deriving DecidableEq, Repr

/-- The type `etcd.PrevExistType`. -/
inductive PrevExistType where
  | PrevIgnore
  | PrevExist
  | PrevNoExist
deriving DecidableEq, Repr

/-- The fields of `etcd.SetOptions` that service.go sets; `TTL` is in seconds and `0` means no
expiry. The default value is what a nil options pointer stands for. -/
structure SetOptions where
  PrevExist : PrevExistType := PrevExistType.PrevIgnore
  TTL : Nat := 0
  Refresh : Bool := false
deriving DecidableEq, Repr

/-- A stored node: its value and the absolute time (seconds) at which it expires. -/
structure Node where
  Value : String
  Expiration : Option Nat
deriving DecidableEq, Repr

/-- A node is alive at `now` when it has no expiry or its expiry is still ahead. -/
def Node.alive (n : Node) (now : Nat) : Bool :=
  match n.Expiration with
  | none => true
  | some e => decide (now < e)

/-- Remaining time to live at `now`; `none` for a node without expiry. -/
def Node.ttl (n : Node) (now : Nat) : Option Nat :=
  n.Expiration.map (fun e => e - now)

/-- The store behind an `etcd.KeysAPI` client: the nodes by key. -/
structure KeysAPI where
  nodes : String → Option Node

/-- The node at `key` as the store sees it at time `now`: expired nodes are gone. -/
def KeysAPI.lookup (c : KeysAPI) (now : Nat) (key : String) : Option Node :=
  match c.nodes key with
  | none => none
  | some n => if n.alive now then some n else none

/-- Write a node at `key`. -/
def KeysAPI.put (c : KeysAPI) (key : String) (n : Node) : KeysAPI :=
  { nodes := fun k => if k = key then some n else c.nodes k }

/-- The key `k` is `dir` itself or lies below it. -/
def isUnder (dir k : String) : Bool :=
  decide (k = dir) || (dir.data ++ ['/']).isPrefixOf k.data

/-- Remove `key` and everything below it. -/
def KeysAPI.removeTree (c : KeysAPI) (key : String) : KeysAPI :=
  { nodes := fun k => if isUnder key k then none else c.nodes k }

/-- Remove the node at `key` only. -/
def KeysAPI.remove (c : KeysAPI) (key : String) : KeysAPI :=
  { nodes := fun k => if k = key then none else c.nodes k }

/-- Expiry of a node written at `now` with the given TTL. -/
def expiry (now ttl : Nat) : Option Nat :=
  if ttl = 0 then none else some (now + ttl)

/-- The request `KeysAPI.Get(ctx, key, &GetOptions{Recursive: false})`: the value of the node,
or an error when the request faults or no node is there. -/
def KeysAPI.Get (c : KeysAPI) (now : Nat) (fault : Bool) (key : String) : Except Err Node :=
  if fault then Except.error Err.unavailable
  else match c.lookup now key with
    | none => Except.error Err.keyNotFound
    | some n => Except.ok n

/-- The request `KeysAPI.Set(ctx, key, value, opts)`: returns the store after the request and the
error. `PrevExist` makes the write conditional on the node being there, `Refresh` renews the
expiry and keeps the stored value (the request must then carry an empty value). -/
def KeysAPI.Set (c : KeysAPI) (now : Nat) (fault : Bool) (key value : String)
    (opts : SetOptions) : KeysAPI × Option Err :=
  if fault then (c, some Err.unavailable)
  else
    match opts.PrevExist, c.lookup now key with
    | PrevExistType.PrevExist, none => (c, some Err.keyNotFound)
    | PrevExistType.PrevNoExist, some _ => (c, some Err.nodeExist)
    | _, cur =>
      if opts.Refresh then
        match cur with
        | none => (c, some Err.keyNotFound)
        | some n =>
          if value ≠ "" then (c, some Err.refreshValue)
          else (c.put key { Value := n.Value, Expiration := expiry now opts.TTL }, none)
      else (c.put key { Value := value, Expiration := expiry now opts.TTL }, none)

/-- The request `KeysAPI.Delete(ctx, key, &DeleteOptions{Recursive: r})`. -/
def KeysAPI.Delete (c : KeysAPI) (now : Nat) (fault : Bool) (key : String)
    (recursive : Bool) : KeysAPI × Option Err :=
  if fault then (c, some Err.unavailable)
  else match c.lookup now key with
    | none => (c, some Err.keyNotFound)
    | some _ => if recursive then (c.removeTree key, none) else (c.remove key, none)

/-! ## The facade state -/

/-- What the code does to the outside world, in the order it does it. -/
inductive Event where
  | set (key value : String) (opts : SetOptions)
  | get (key : String)
  | delete (key : String) (recursive : Bool)
  | sleep (seconds : Nat)
  | stopFlag
  | crossDrain
  | shutdownHook (h : Nat)
  | stopReturned
deriving DecidableEq, Repr

/-- Where a maintenance goroutine stands: before the guarded update of a round, in the sleep
after it, or returned. -/
inductive LoopPc where
  | atUpdate
  | atSleep
  | exited
deriving DecidableEq, Repr

/-- The variables captured by the goroutine that `doRegister` starts: the arguments of the call,
the flag `isCreated` and the round counter `i`; `pc` is the point the goroutine has reached. -/
structure RegLoop where
  path : String
  js : String
  refresh : Bool
  isCreated : Bool := false
  i : Nat := 0
  pc : LoopPc := LoopPc.atUpdate
deriving DecidableEq, Repr

/-- The constant `serverStatusStop`. -/
def serverStatusStop : Int := 1

/-- The fields of `ServBaseV2` that registration, shutdown and manual control use, and the
environment they act in: the clock `now`, the `log` of effects and the maintenance goroutines
`loops`. The Go map `regInfos` is a list of pairs with distinct keys; the shutdown hook is
named by a number; `etcdClient` is the primary store. -/
structure ServBaseV2 where
  useBaseloc : String
  servLocation : String
  servId : Int
  stop : Int
  regInfos : List (String × String)
  etcdClient : KeysAPI
  crossRegisterClients : List (String × KeysAPI)
  onShutdown : Nat
  now : Nat
  log : List Event
  loops : List RegLoop

/-- The method `isStop`. -/
def ServBaseV2.isStop (m : ServBaseV2) : Bool :=
  decide (m.stop = serverStatusStop)

/-- The method `setStatusToStop`. -/
def ServBaseV2.setStatusToStop (m : ServBaseV2) : ServBaseV2 :=
  { m with stop := serverStatusStop, log := m.log ++ [Event.stopFlag] }

/-- The call `time.Sleep(time.Second * d)`. -/
def ServBaseV2.sleep (m : ServBaseV2) (d : Nat) : ServBaseV2 :=
  { m with now := m.now + d, log := m.log ++ [Event.sleep d] }

/-- The assignment `regInfos[path] = regInfo` on a map kept as a list of pairs. -/
def mapSet (l : List (String × String)) (path regInfo : String) : List (String × String) :=
  match l with
  | [] => [(path, regInfo)]
  | (k, v) :: t => if k = path then (path, regInfo) :: t else (k, v) :: mapSet t path regInfo

/-- The method `addRegisterInfo`. -/
def ServBaseV2.addRegisterInfo (m : ServBaseV2) (path regInfo : String) : ServBaseV2 :=
  { m with regInfos := mapSet m.regInfos path regInfo }

/-! ## doRegister and its maintenance loop -/

/-- The closure `updateEtcd` of `doRegister`: one Set, chosen by `isCreated` and `refresh`, and the
new value of `isCreated`. -/
def updateEtcd (fault : Bool) (m : ServBaseV2) (l : RegLoop) : ServBaseV2 × RegLoop :=
  if !l.isCreated then
    let opts : SetOptions := { TTL := 60 }
    let r := m.etcdClient.Set m.now fault l.path l.js opts
    ({ m with etcdClient := r.1, log := m.log ++ [Event.set l.path l.js opts] },
      { l with isCreated := r.2.isNone })
  else if l.refresh then
    let opts : SetOptions := { PrevExist := PrevExistType.PrevExist, TTL := 60, Refresh := true }
    let r := m.etcdClient.Set m.now fault l.path "" opts
    ({ m with etcdClient := r.1, log := m.log ++ [Event.set l.path "" opts] },
      { l with isCreated := r.2.isNone })
  else
    let opts : SetOptions := { TTL := 60 }
    let r := m.etcdClient.Set m.now fault l.path l.js opts
    ({ m with etcdClient := r.1, log := m.log ++ [Event.set l.path l.js opts] },
      { l with isCreated := r.2.isNone })

/-- The function `withRegLockRunClosureBeforeStop`: under `muReg`, run the closure unless the
stop flag is set. The closure works on the facade and on its captured variables `s`. -/
def withRegLockRunClosureBeforeStop {σ : Type} (m : ServBaseV2) (s : σ)
    (f : ServBaseV2 → σ → ServBaseV2 × σ) : ServBaseV2 × σ :=
  if m.isStop then (m, s) else f m s

/-- One maintenance cycle: the guarded `updateEtcd` of one loop round. -/
def cycle (fault : Bool) (m : ServBaseV2) (l : RegLoop) : ServBaseV2 × RegLoop :=
  withRegLockRunClosureBeforeStop m l (updateEtcd fault)

/-- The rest of a loop round: sleep 20 seconds, then return if the stop flag is set, else go to the
next round. -/
def afterCycle (m : ServBaseV2) (l : RegLoop) : ServBaseV2 × RegLoop :=
  let m1 := m.sleep 20
  if m1.isStop then (m1, { l with pc := LoopPc.exited })
  else (m1, { l with i := l.i + 1, pc := LoopPc.atUpdate })

/-- One round of the loop body. -/
def round (fault : Bool) (m : ServBaseV2) (l : RegLoop) : ServBaseV2 × RegLoop :=
  let r := cycle fault m l
  afterCycle r.1 r.2

/-- The goroutine run for at most `n` rounds; `faults i` is the fault of the Set of round `i`
counted from the start of this run. A loop that has returned does nothing more. -/
def runLoop (faults : Nat → Bool) : Nat → ServBaseV2 → RegLoop → ServBaseV2 × RegLoop
  | 0, m, l => (m, l)
  | n + 1, m, l =>
    let r := runLoop faults n m l
    if r.2.pc = LoopPc.exited then r else round (faults n) r.1 r.2

/-- The method `doRegister`: record the path, start the goroutine, return nil. -/
def ServBaseV2.doRegister (m : ServBaseV2) (path js : String) (refresh : Bool) :
    ServBaseV2 × Option Err :=
  let m1 := m.addRegisterInfo path js
  ({ m1 with loops := m1.loops ++ [{ path := path, js := js, refresh := refresh }] }, none)

/-! ## Stop -/

/-- The loop of `clearRegisterInfos`: one recursive Delete per path, whatever the earlier ones
returned; the second component collects the errors the loop logs. -/
def deleteAll (faults : String → Bool) :
    List String → ServBaseV2 → ServBaseV2 × List (String × Err)
  | [], m => (m, [])
  | path :: rest, m =>
    let r := m.etcdClient.Delete m.now (faults path) path true
    let m1 := { m with etcdClient := r.1, log := m.log ++ [Event.delete path true] }
    let out := deleteAll faults rest m1
    match r.2 with
    | none => out
    | some err => (out.1, (path, err) :: out.2)

/-- The method `clearRegisterInfos`: sleep 2 seconds, then delete every recorded path. -/
def ServBaseV2.clearRegisterInfos (m : ServBaseV2) (faults : String → Bool) :
    ServBaseV2 × List (String × Err) :=
  deleteAll faults (m.regInfos.map Prod.fst) (m.sleep 2)

/-- Modelled from the spec: `clearCrossDCRegisterInfos` is called by `Stop` but is not part of
service.go. The spec describes it as the cross-DC drain, which works on the store clients of the
remote regions, each independent of the primary. It is a parameter `drain`: from the registry and
the region clients to the region clients afterwards and the seconds it took. -/
def ServBaseV2.clearCrossDCRegisterInfos (m : ServBaseV2)
    (drain : List (String × String) → List (String × KeysAPI) → List (String × KeysAPI) × Nat) :
    ServBaseV2 :=
  let r := drain m.regInfos m.crossRegisterClients
  { m with crossRegisterClients := r.1, now := m.now + r.2, log := m.log ++ [Event.crossDrain] }

/-- The call `m.onShutdown()`: the hook is user code, the model records that it was invoked. -/
def ServBaseV2.runOnShutdown (m : ServBaseV2) : ServBaseV2 :=
  { m with log := m.log ++ [Event.shutdownHook m.onShutdown] }

/-- The state in which `Stop` invokes the shutdown hook. -/
def ServBaseV2.beforeHook (m : ServBaseV2)
    (drain : List (String × String) → List (String × KeysAPI) → List (String × KeysAPI) × Nat)
    (faults : String → Bool) : ServBaseV2 :=
  (m.setStatusToStop.clearRegisterInfos faults).1.clearCrossDCRegisterInfos drain

/-- The method `Stop`. -/
def ServBaseV2.Stop (m : ServBaseV2)
    (drain : List (String × String) → List (String × KeysAPI) → List (String × KeysAPI) × Nat)
    (faults : String → Bool) : ServBaseV2 :=
  (m.beforeHook drain faults).runOnShutdown

/-- The method `SetOnShutdown`. -/
def ServBaseV2.SetOnShutdown (m : ServBaseV2) (h : Nat) : ServBaseV2 :=
  { m with onShutdown := h }

/-! ## Manual control -/

/-- The constant `BASE_LOC_DIST_V2`. -/
def BASE_LOC_DIST_V2 : String := "dist2"

/-- The constant `BASE_LOC_REG_MANUAL`. -/
def BASE_LOC_REG_MANUAL : String := "manual"

/-- Modelled from the spec: the type `ServCtrl` is declared outside service.go; the spec gives the
manual-control payload as `ctrl: groups [string], weight int, disable bool`, and the code reads
and writes exactly these three fields. -/
structure ServCtrl where
  Groups : List String
  Weight : Int
  Disable : Bool
deriving DecidableEq, Repr

/-- Modelled from the spec: the type `ManualData` is declared outside service.go; its field `Ctrl`
is a pointer to a `ServCtrl`, nil when the section is absent. -/
structure ManualData where
  Ctrl : Option ServCtrl
deriving DecidableEq, Repr

/-- The two functions of `encoding/json` at the type `ManualData`. `Unmarshal` is applied to a
fresh record, so its result is the decoded record or an error. -/
structure Json where
  Unmarshal : String → Except Err ManualData
  Marshal : ManualData → Except Err String

/-- The path of the manual-control node, as `SetGroupAndDisable` formats it. -/
def ServBaseV2.manualPath (m : ServBaseV2) : String :=
  m.useBaseloc ++ "/" ++ BASE_LOC_DIST_V2 ++ "/" ++ m.servLocation ++ "/" ++ toString m.servId
    ++ "/" ++ BASE_LOC_REG_MANUAL

/-- The method `getValueFromEtcd`: the value and the error of a Get; the value is empty on error. -/
def ServBaseV2.getValueFromEtcd (m : ServBaseV2) (fault : Bool) (path : String) :
    ServBaseV2 × String × Option Err :=
  let m1 := { m with log := m.log ++ [Event.get path] }
  match m.etcdClient.Get m.now fault path with
  | Except.error err => (m1, "", some err)
  | Except.ok n => (m1, n.Value, none)

/-- The method `setValueToEtcd`. -/
def ServBaseV2.setValueToEtcd (m : ServBaseV2) (fault : Bool) (path value : String)
    (opts : SetOptions) : ServBaseV2 × Option Err :=
  let r := m.etcdClient.Set m.now fault path value opts
  ({ m with etcdClient := r.1, log := m.log ++ [Event.set path value opts] }, r.2)

/-- The search loop of `SetGroupAndDisable`: is `group` among `groups`. -/
def isFind (group : String) : List String → Bool
  | [] => false
  | g :: rest => if g = group then true else isFind group rest

/-- The update of the decoded record in `SetGroupAndDisable`: a missing `Ctrl` becomes an empty
one, the group is appended unless found, a zero weight becomes 100, `Disable` is overwritten. -/
def updateManual (manual : ManualData) (group : String) (disable : Bool) : ManualData :=
  let ctrl : ServCtrl :=
    match manual.Ctrl with
    | none => { Groups := [], Weight := 0, Disable := false }
    | some c => c
  let groups := if isFind group ctrl.Groups = false then ctrl.Groups ++ [group] else ctrl.Groups
  let weight := if ctrl.Weight = 0 then 100 else ctrl.Weight
  { Ctrl := some { Groups := groups, Weight := weight, Disable := disable } }

/-- The record that `SetGroupAndDisable` works on after decoding `value`: the decoded record, or
the empty record when decoding failed. -/
def decoded (json : Json) (value : String) : ManualData × Option Err :=
  match json.Unmarshal value with
  | Except.ok manual => (manual, none)
  | Except.error err => ({ Ctrl := none }, some err)

/-- The method `SetGroupAndDisable`. The error of the Get is logged and dropped; a decode error
is returned when the value read is not empty; the result is otherwise the error of Marshal or of
the Set. -/
def ServBaseV2.SetGroupAndDisable (m : ServBaseV2) (json : Json) (getFault setFault : Bool)
    (group : String) (disable : Bool) : ServBaseV2 × Option Err :=
  let path := m.manualPath
  let r := m.getValueFromEtcd getFault path
  let m1 := r.1
  let value := r.2.1
  let d := decoded json value
  if 0 < value.length ∧ d.2.isSome then (m1, d.2)
  else
    match json.Marshal (updateManual d.1 group disable) with
    | Except.error err => (m1, some err)
    | Except.ok newValue => m1.setValueToEtcd setFault path newValue {}

/-- The value stored at the manual-control path, the empty string when no node is there. -/
def ServBaseV2.storedValue (m : ServBaseV2) : String :=
  match m.etcdClient.lookup m.now m.manualPath with
  | none => ""
  | some n => n.Value

/-- The group list of a record; empty when the record has no `Ctrl`. -/
def ManualData.groups (manual : ManualData) : List String :=
  match manual.Ctrl with
  | none => []
  | some c => c.Groups

/-- The weight of a record; 0 (unset) when the record has no `Ctrl`. -/
def ManualData.weight (manual : ManualData) : Int :=
  match manual.Ctrl with
  | none => 0
  | some c => c.Weight

/-! ## The interleaving of maintenance goroutines and Stop -/

/-- How far the call of `Stop` has come. -/
inductive StopPc where
  | notCalled
  | flagSet
  | slept
  | cleared
  | drained
  | returned
deriving DecidableEq, Repr

/-- The process: the facade and the progress of `Stop`. -/
structure Sys where
  m : ServBaseV2
  stopPc : StopPc

/-- Put the loop `l` at position `k` of the goroutine list. -/
def ServBaseV2.setLoop (m : ServBaseV2) (k : Nat) (l : RegLoop) : ServBaseV2 :=
  { m with loops := m.loops.set k l }

/-- One atomic step of the process. The sections under `muReg` (the guarded update of a loop
round, `addRegisterInfo`, the deletion loop of `clearRegisterInfos`) are single steps; so are
the store of the stop flag, the grace sleep of `clearRegisterInfos`, the wake-up and stop check
of a loop, the cross-DC drain and the hook; the clock may advance between steps. -/
inductive Step
    (drain : List (String × String) → List (String × KeysAPI) → List (String × KeysAPI) × Nat) :
    Sys → Sys → Prop where
  | register (s : Sys) (path js : String) (refresh : Bool) :
      Step drain s { s with m := (s.m.doRegister path js refresh).1 }
  | update (s : Sys) (k : Nat) (l : RegLoop) (fault : Bool)
      (hk : s.m.loops.get? k = some l) (hpc : l.pc = LoopPc.atUpdate) :
      Step drain s
        { s with m := (cycle fault s.m l).1.setLoop k { (cycle fault s.m l).2 with pc := LoopPc.atSleep } }
  | wake (s : Sys) (k : Nat) (l : RegLoop)
      (hk : s.m.loops.get? k = some l) (hpc : l.pc = LoopPc.atSleep) :
      Step drain s { s with m := (afterCycle s.m l).1.setLoop k (afterCycle s.m l).2 }
  | tick (s : Sys) (d : Nat) :
      Step drain s { s with m := { s.m with now := s.m.now + d } }
  | stopFlag (s : Sys) (hpc : s.stopPc = StopPc.notCalled) :
      Step drain s { m := s.m.setStatusToStop, stopPc := StopPc.flagSet }
  | grace (s : Sys) (hpc : s.stopPc = StopPc.flagSet) :
      Step drain s { m := s.m.sleep 2, stopPc := StopPc.slept }
  | clear (s : Sys) (faults : String → Bool) (hpc : s.stopPc = StopPc.slept) :
      Step drain s
        { m := (deleteAll faults (s.m.regInfos.map Prod.fst) s.m).1, stopPc := StopPc.cleared }
  | cross (s : Sys) (hpc : s.stopPc = StopPc.cleared) :
      Step drain s { m := s.m.clearCrossDCRegisterInfos drain, stopPc := StopPc.drained }
  | hook (s : Sys) (hpc : s.stopPc = StopPc.drained) :
      Step drain s
        { m := { s.m.runOnShutdown with log := s.m.runOnShutdown.log ++ [Event.stopReturned] },
          stopPc := StopPc.returned }

/-- The states the process can reach from `s0`. -/
inductive Reachable
    (drain : List (String × String) → List (String × KeysAPI) → List (String × KeysAPI) × Nat)
    (s0 : Sys) : Sys → Prop where
  | init : Reachable drain s0 s0
  | step (s t : Sys) : Reachable drain s0 s → Step drain s t → Reachable drain s0 t

/-- A freshly built facade: stop flag clear, nothing registered, nothing done yet. -/
def Sys.fresh (s : Sys) : Prop :=
  s.m.stop = 0 ∧ s.m.regInfos = [] ∧ s.m.log = [] ∧ s.m.loops = [] ∧ s.stopPc = StopPc.notCalled

/-- The event is a store write. -/
def Event.isSet : Event → Bool
  | Event.set _ _ _ => true
  | _ => false

/-- The event is a Delete of `clearRegisterInfos` or the return of `Stop`. -/
def Event.isShutdown : Event → Bool
  | Event.delete _ _ => true
  | Event.stopReturned => true
  | _ => false

/-- No write follows a Delete or the return of Stop in the log. -/
def NoSetAfterShutdown (log : List Event) : Prop :=
  ∀ pre post : List Event, ∀ e : Event,
    log = pre ++ e :: post → e.isShutdown = true → ∀ e2 ∈ post, e2.isSet = false

/-- The invariant of the interleaving: once `Stop` has started the flag is set; while the flag is
clear the log holds no Delete and no return of `Stop`; no Set follows one of those. -/
def StopInv (s : Sys) : Prop :=
  (s.stopPc ≠ StopPc.notCalled → s.m.isStop = true) ∧
  (s.m.isStop = false → ∀ e ∈ s.m.log, e.isShutdown = false) ∧
  NoSetAfterShutdown s.m.log

/-- What happens between the end of a round's sleep and the update of the next round: `d` more
seconds pass (scheduling, the wait for `muReg`) and the rest of the process and the other
clients of the store change it by `other`. -/
def ServBaseV2.delay (m : ServBaseV2) (d : Nat) (other : KeysAPI → KeysAPI) : ServBaseV2 :=
  { m with now := m.now + d, etcdClient := other m.etcdClient }

/-- The goroutine run for at most `n` rounds on a schedule: before the update of round `k`,
`lat k` seconds pass and the store changes by `other k`; `faults k` is the fault of the Set of
round `k`. -/
def runSchedule (faults : Nat → Bool) (lat : Nat → Nat) (other : Nat → KeysAPI → KeysAPI) :
    Nat → ServBaseV2 → RegLoop → ServBaseV2 × RegLoop
  | 0, m, l => (m, l)
  | n + 1, m, l =>
    let r := runSchedule faults lat other n m l
    if r.2.pc = LoopPc.exited then r
    else round (faults n) (r.1.delay (lat n) (other n)) r.2

/-- The state right after the update of round `k` of a scheduled run. -/
def updatedAt (faults : Nat → Bool) (lat : Nat → Nat) (other : Nat → KeysAPI → KeysAPI)
    (m : ServBaseV2) (l : RegLoop) (k : Nat) : ServBaseV2 × RegLoop :=
  cycle (faults k) ((runSchedule faults lat other k m l).1.delay (lat k) (other k))
    (runSchedule faults lat other k m l).2

/-! ## Concrete states used to exercise the theorems -/

/-- The registration path of the scenario in the spec, under the base path `/roc`. -/
def exPath : String := "/roc/dist2/groupA/svcB/7/serve"

/-- The payload of the scenario in the spec. -/
def exPayload : String :=
  "\x7b\"servs\":\x7b\"h1\":\x7b\"type\":\"thrift\",\"addr\":\"10.0.0.1:9000\"\x7d\x7d,\"envGroup\":\"pre\"\x7d"

/-- An empty primary store. -/
def exEmptyStore : KeysAPI := { nodes := fun _ => none }

/-- A running facade of service `groupA/svcB`, instance 7, with nothing registered. -/
def exFacade : ServBaseV2 :=
  { useBaseloc := "/roc", servLocation := "groupA/svcB", servId := 7, stop := 0, regInfos := [],
    etcdClient := exEmptyStore, crossRegisterClients := [], onShutdown := 0, now := 0,
    log := [], loops := [] }

/-- A store that holds an operator-edited value at the registration path, expiring at second 60. -/
def exEditedStore : KeysAPI :=
  exEmptyStore.put exPath { Value := "edited by hand", Expiration := some 60 }

/-- A running facade over `exEditedStore` at second 20. -/
def exRunning : ServBaseV2 :=
  { exFacade with etcdClient := exEditedStore, now := 20, regInfos := [(exPath, exPayload)] }

/-- The same facade with the stop flag set. -/
def exStopped : ServBaseV2 := { exRunning with stop := serverStatusStop }

/-- A maintenance loop for `exPath` whose node has been created. -/
def exCreatedLoop : RegLoop :=
  { path := exPath, js := exPayload, refresh := true, isCreated := true, i := 1 }

/-- A cross-DC drain that leaves the region clients alone and takes 2 seconds. -/
def exDrain (_ : List (String × String)) (cs : List (String × KeysAPI)) :
    List (String × KeysAPI) × Nat :=
  (cs, 2)

/-- The fresh process over the example facade. -/
def exSys0 : Sys := { m := exFacade, stopPc := StopPc.notCalled }

/-- The loop record that `doRegister(exPath, exPayload, true)` starts. -/
def exNewLoop : RegLoop := { path := exPath, js := exPayload, refresh := true }

/-- After `doRegister(exPath, exPayload, true)`. -/
def exSys1 : Sys := { exSys0 with m := (exSys0.m.doRegister exPath exPayload true).1 }

/-- After the first update of the loop. -/
def exSys2 : Sys :=
  { exSys1 with
    m := ServBaseV2.setLoop (cycle false exSys1.m exNewLoop).1 0
      ({ (cycle false exSys1.m exNewLoop).2 with pc := LoopPc.atSleep }) }

/-- After `Stop` has set the stop flag. -/
def exSys3 : Sys := { m := exSys2.m.setStatusToStop, stopPc := StopPc.flagSet }

/-- After the grace sleep of `clearRegisterInfos`. -/
def exSys4 : Sys := { m := exSys3.m.sleep 2, stopPc := StopPc.slept }

/-- After the deletion loop of `clearRegisterInfos`. -/
def exSys5 : Sys :=
  { m := (deleteAll (fun _ => false) (exSys4.m.regInfos.map Prod.fst) exSys4.m).1,
    stopPc := StopPc.cleared }

/-- The loop of `exSys2`: created, in its sleep. -/
def exSleepingLoop : RegLoop := { exNewLoop with isCreated := true, pc := LoopPc.atSleep }

/-- After the loop of `exSys2` has slept its 20 seconds and checked the stop flag. -/
def exLate3 : Sys :=
  { exSys2 with
    m := ServBaseV2.setLoop (afterCycle exSys2.m exSleepingLoop).1 0
      (afterCycle exSys2.m exSleepingLoop).2 }

/-- After 41 more seconds without the loop being scheduled. -/
def exLate4 : Sys := { exLate3 with m := { exLate3.m with now := exLate3.m.now + 41 } }

/-- After `doRegister(exPath, "p1", true)`. -/
def exTwo1 : Sys := { exSys0 with m := (exSys0.m.doRegister exPath "p1" true).1 }

/-- After a second `doRegister(exPath, "p2", true)`. -/
def exTwo2 : Sys := { exTwo1 with m := (exTwo1.m.doRegister exPath "p2" true).1 }

/-- After the first update of the first loop. -/
def exTwo3 : Sys :=
  { exTwo2 with
    m := ServBaseV2.setLoop
      (cycle false exTwo2.m { path := exPath, js := "p1", refresh := true }).1 0
      ({ (cycle false exTwo2.m { path := exPath, js := "p1", refresh := true }).2 with
        pc := LoopPc.atSleep }) }

/-- After the first update of the second loop. -/
def exTwo4 : Sys :=
  { exTwo3 with
    m := ServBaseV2.setLoop
      (cycle false exTwo3.m { path := exPath, js := "p2", refresh := true }).1 1
      ({ (cycle false exTwo3.m { path := exPath, js := "p2", refresh := true }).2 with
        pc := LoopPc.atSleep }) }

/-- A facade with three registered paths, each present in the primary store, and hook 9. -/
def exThree : ServBaseV2 :=
  { exFacade with
    regInfos := [("/roc/dist2/groupA/svcB/7/serve", "s"), ("/roc/dist2/groupA/svcB/7/backdoor", "b"),
      ("/roc/dist2/groupA/svcB/7/metrics", "m")]
    etcdClient :=
      ((exEmptyStore.put "/roc/dist2/groupA/svcB/7/serve" { Value := "s", Expiration := some 60 }).put
        "/roc/dist2/groupA/svcB/7/backdoor" { Value := "b", Expiration := some 60 }).put
        "/roc/dist2/groupA/svcB/7/metrics" { Value := "m", Expiration := some 60 }
    onShutdown := 9 }

/-- A manual-control record with groups `a`, `b`, weight 50, enabled. -/
def exRecAB : ManualData := { Ctrl := some { Groups := ["a", "b"], Weight := 50, Disable := false } }

/-- The record a call with group `b` and disable writes when it starts from nothing. -/
def exRecB : ManualData := { Ctrl := some { Groups := ["b"], Weight := 100, Disable := true } }

/-- The record `exRecAB` after a call with group `b` and disable. -/
def exRecABd : ManualData := { Ctrl := some { Groups := ["a", "b"], Weight := 50, Disable := true } }

/-- The record `exRecAB` after a call with group `c` and disable. -/
def exRecABC : ManualData :=
  { Ctrl := some { Groups := ["a", "b", "c"], Weight := 50, Disable := true } }

/-- JSON text of `exRecAB`. -/
def exTextAB : String :=
  "\x7b\"ctrl\":\x7b\"groups\":[\"a\",\"b\"],\"weight\":50,\"disable\":false\x7d\x7d"

/-- JSON text of `exRecB`. -/
def exTextB : String :=
  "\x7b\"ctrl\":\x7b\"groups\":[\"b\"],\"weight\":100,\"disable\":true\x7d\x7d"

/-- JSON text of `exRecABd`. -/
def exTextABd : String :=
  "\x7b\"ctrl\":\x7b\"groups\":[\"a\",\"b\"],\"weight\":50,\"disable\":true\x7d\x7d"

/-- JSON text of `exRecABC`. -/
def exTextABC : String :=
  "\x7b\"ctrl\":\x7b\"groups\":[\"a\",\"b\",\"c\"],\"weight\":50,\"disable\":true\x7d\x7d"

/-- A finite fragment of `encoding/json` at `ManualData`: the four example records and their
texts; every other text, the empty one included, fails to decode. -/
def exJson : Json :=
  { Unmarshal := fun text =>
      if text = exTextAB then Except.ok exRecAB
      else if text = exTextB then Except.ok exRecB
      else if text = exTextABd then Except.ok exRecABd
      else if text = exTextABC then Except.ok exRecABC
      else if text = "" then Except.error (Err.json "unexpected end of JSON input")
      else Except.error (Err.json "invalid character")
    Marshal := fun manual =>
      if manual = exRecAB then Except.ok exTextAB
      else if manual = exRecB then Except.ok exTextB
      else if manual = exRecABd then Except.ok exTextABd
      else if manual = exRecABC then Except.ok exTextABC
      else Except.error (Err.json "record outside the fragment") }

/-- The example facade with `exRecAB` stored at its manual-control path. -/
def exManual : ServBaseV2 :=
  { exFacade with
    etcdClient := exEmptyStore.put "/roc/dist2/groupA/svcB/7/manual"
      { Value := exTextAB, Expiration := none } }

/-- The example facade with a text that is not JSON stored at its manual-control path. -/
def exGarbled : ServBaseV2 :=
  { exFacade with
    etcdClient := exEmptyStore.put "/roc/dist2/groupA/svcB/7/manual"
      { Value := "not json", Expiration := none } }

/-- The refresh request of a maintenance cycle. -/
def refreshOptions : SetOptions :=
  { PrevExist := PrevExistType.PrevExist, TTL := 60, Refresh := true }

/-! # Theorems -/

/-! ## Basic facts about one round -/

theorem cycle_of_running (fault : Bool) (m : ServBaseV2) (l : RegLoop) (h : m.isStop = false) :
    cycle fault m l = updateEtcd fault m l := by
  simp [cycle, withRegLockRunClosureBeforeStop, h]

theorem cycle_of_stopped (fault : Bool) (m : ServBaseV2) (l : RegLoop) (h : m.isStop = true) :
    cycle fault m l = (m, l) := by
  simp [cycle, withRegLockRunClosureBeforeStop, h]

theorem updateEtcd_frame (fault : Bool) (m : ServBaseV2) (l : RegLoop) :
    (updateEtcd fault m l).1.stop = m.stop ∧ (updateEtcd fault m l).1.now = m.now ∧
    (updateEtcd fault m l).1.regInfos = m.regInfos ∧
    (updateEtcd fault m l).2.path = l.path ∧ (updateEtcd fault m l).2.js = l.js ∧
    (updateEtcd fault m l).2.refresh = l.refresh ∧ (updateEtcd fault m l).2.pc = l.pc ∧
    (updateEtcd fault m l).2.i = l.i := by
  unfold updateEtcd
  split
  · simp
  · split <;> simp

theorem updateEtcd_spec (fault : Bool) (m : ServBaseV2) (l : RegLoop) :
    ∃ value opts,
      (updateEtcd fault m l).1.log = m.log ++ [Event.set l.path value opts] ∧
      (updateEtcd fault m l).1.etcdClient = (m.etcdClient.Set m.now fault l.path value opts).1 ∧
      ((updateEtcd fault m l).2.isCreated = true ↔
        (m.etcdClient.Set m.now fault l.path value opts).2 = none) ∧
      (l.isCreated = false → value = l.js ∧ opts = { TTL := 60 }) ∧
      (l.isCreated = true → l.refresh = true → value = "" ∧
        opts = { PrevExist := PrevExistType.PrevExist, TTL := 60, Refresh := true }) ∧
      opts.TTL = 60 := by
  unfold updateEtcd
  by_cases hc : l.isCreated = true
  · by_cases hr : l.refresh = true
    · refine ⟨"", { PrevExist := PrevExistType.PrevExist, TTL := 60, Refresh := true }, ?_⟩
      simp [hc, hr, Option.isNone_iff_eq_none]
    · refine ⟨l.js, { TTL := 60 }, ?_⟩
      simp [hc, hr, Option.isNone_iff_eq_none]
  · refine ⟨l.js, { TTL := 60 }, ?_⟩
    simp [hc, Option.isNone_iff_eq_none]

theorem afterCycle_frame (m : ServBaseV2) (l : RegLoop) :
    (afterCycle m l).1 = m.sleep 20 ∧ (afterCycle m l).2.path = l.path ∧
    (afterCycle m l).2.js = l.js ∧ (afterCycle m l).2.refresh = l.refresh ∧
    (afterCycle m l).2.isCreated = l.isCreated := by
  by_cases h : (m.sleep 20).isStop = true <;> simp [afterCycle, h]

theorem sleep_isStop (m : ServBaseV2) (d : Nat) : (m.sleep d).isStop = m.isStop := rfl

theorem round_of_running (fault : Bool) (m : ServBaseV2) (l : RegLoop) (h : m.isStop = false) :
    (round fault m l).1 = (updateEtcd fault m l).1.sleep 20 ∧
    (round fault m l).1.isStop = false ∧
    (round fault m l).2 = { (updateEtcd fault m l).2 with
      i := l.i + 1, pc := LoopPc.atUpdate } := by
  have hs : (updateEtcd fault m l).1.isStop = false := by
    have := (updateEtcd_frame fault m l).1
    simp [ServBaseV2.isStop, this] at h ⊢
    exact h
  have hi := (updateEtcd_frame fault m l).2.2.2.2.2.2.2
  have hs2 : ((updateEtcd fault m l).1.sleep 20).isStop = false := by
    rw [sleep_isStop]; exact hs
  simp [round, cycle_of_running fault m l h, afterCycle, hs2, hi]

theorem runLoop_of_running (faults : Nat → Bool) (n : Nat) (m : ServBaseV2) (l : RegLoop)
    (h : m.isStop = false) (hpc : l.pc = LoopPc.atUpdate) :
    (runLoop faults n m l).1.isStop = false ∧ (runLoop faults n m l).2.pc = LoopPc.atUpdate ∧
    (runLoop faults n m l).2.i = l.i + n ∧
    ((runLoop faults n m l).1.log.filter Event.isSet).length
      = (m.log.filter Event.isSet).length + n := by
  induction n with
  | zero => simp [runLoop, h, hpc]
  | succ n ih =>
    obtain ⟨h1, h2, h3, h4⟩ := ih
    have hr := round_of_running (faults n) _ (runLoop faults n m l).2 h1
    obtain ⟨value, opts, hlog, -⟩ := updateEtcd_spec (faults n) (runLoop faults n m l).1
      (runLoop faults n m l).2
    simp only [runLoop, h2]
    simp only [reduceCtorEq, if_false]
    refine ⟨hr.2.1, ?_, ?_, ?_⟩
    · rw [hr.2.2]
    · rw [hr.2.2]; simp [h3]; omega
    · rw [hr.1]
      simp [ServBaseV2.sleep, hlog, List.filter_append, Event.isSet, h4]
      omega

/-! ## The create/refresh state machine -/

/-- C5. While the stop flag is clear a maintenance cycle issues exactly one Set at the loop's
path: a plain write of `js` with TTL 60 when the state is NotCreated, the conditional refresh
when it is Created with `refresh`; the state afterwards is Created exactly when that Set
returned no error. The loop that `doRegister` starts begins NotCreated; after a failed Set the
next cycle is a plain write of `js`; whatever the faults, the loop is still running after any
number of rounds and has issued one Set per round; `doRegister` returns nil. -/
theorem doRegister_cycle_state_machine (fault : Bool) (m : ServBaseV2) (l : RegLoop)
    (hrun : m.isStop = false) :
    (∃ value opts,
      (cycle fault m l).1.log = m.log ++ [Event.set l.path value opts] ∧
      (cycle fault m l).1.etcdClient = (m.etcdClient.Set m.now fault l.path value opts).1 ∧
      ((cycle fault m l).2.isCreated = true ↔
        (m.etcdClient.Set m.now fault l.path value opts).2 = none) ∧
      (l.isCreated = false → value = l.js ∧ opts = { TTL := 60 }) ∧
      (l.isCreated = true → l.refresh = true → value = "" ∧ opts = refreshOptions)) ∧
    (∀ path js refresh,
      (m.doRegister path js refresh).1.loops = m.loops ++
        [{ path := path, js := js, refresh := refresh, isCreated := false, i := 0,
           pc := LoopPc.atUpdate }]) ∧
    (∀ fault2 m2, m2.isStop = false → (cycle fault m l).2.isCreated = false →
      (cycle fault2 m2 (cycle fault m l).2).1.log
        = m2.log ++ [Event.set l.path l.js { TTL := 60 }]) ∧
    (∀ faults n, l.pc = LoopPc.atUpdate →
      (runLoop faults n m l).2.pc = LoopPc.atUpdate ∧
      (runLoop faults n m l).2.i = l.i + n ∧
      ((runLoop faults n m l).1.log.filter Event.isSet).length
        = (m.log.filter Event.isSet).length + n) ∧
    (∀ path js refresh, (m.doRegister path js refresh).2 = none) := by
  refine ⟨?_, ?_, ?_, ?_, ?_⟩
  · obtain ⟨value, opts, h1, h2, h3, h4, h5, -⟩ := updateEtcd_spec fault m l
    rw [cycle_of_running fault m l hrun]
    exact ⟨value, opts, h1, h2, h3, h4, h5⟩
  · intro path js refresh
    simp [ServBaseV2.doRegister, ServBaseV2.addRegisterInfo]
  · intro fault2 m2 h2 hc
    obtain ⟨value, opts, h1, -, -, h4, -⟩ := updateEtcd_spec fault2 m2 (cycle fault m l).2
    have hf := updateEtcd_frame fault m l
    rw [cycle_of_running fault m l hrun] at hc h1 h4 ⊢
    rw [cycle_of_running fault2 m2 _ h2, h1]
    obtain ⟨hv, ho⟩ := h4 hc
    rw [hv, ho, hf.2.2.2.1, hf.2.2.2.2.1]
  · intro faults n hpc
    have h := runLoop_of_running faults n m l hrun hpc
    exact ⟨h.2.1, h.2.2.1, h.2.2.2⟩
  · intro path js refresh
    rfl

/-- Witness for C5: the first cycle of a fresh loop on the running example facade writes the
payload with TTL 60 and leaves the loop Created. -/
theorem doRegister_cycle_state_machine_witness :
    exFacade.isStop = false ∧
    (cycle false exFacade { path := exPath, js := exPayload, refresh := true }).1.log
      = [Event.set exPath exPayload { TTL := 60 }] ∧
    (cycle false exFacade { path := exPath, js := exPayload, refresh := true }).2.isCreated = true ∧
    (runLoop (fun _ => true) 3 exFacade { path := exPath, js := exPayload, refresh := true }).2.pc
      = LoopPc.atUpdate :=
  ⟨by decide, by decide, by decide,
    ((doRegister_cycle_state_machine false exFacade
      { path := exPath, js := exPayload, refresh := true } (by decide)).2.2.2.1
      (fun _ => true) 3 rfl).1⟩

/-! ## Refresh keeps the stored value -/

theorem lookup_some (c : KeysAPI) (now : Nat) (key : String) (n : Node)
    (h : c.lookup now key = some n) : c.nodes key = some n ∧ n.alive now = true := by
  unfold KeysAPI.lookup at h
  cases hc : c.nodes key with
  | none => simp [hc] at h
  | some x =>
    simp only [hc] at h
    by_cases ha : x.alive now = true
    · simp [ha] at h; subst h; exact ⟨rfl, ha⟩
    · simp [ha] at h

theorem refresh_set (c : KeysAPI) (now : Nat) (fault : Bool) (key : String) (n : Node)
    (h : c.lookup now key = some n) :
    c.Set now fault key "" refreshOptions
      = if fault then (c, some Err.unavailable)
        else (c.put key { Value := n.Value, Expiration := some (now + 60) }, none) := by
  cases fault <;> simp [KeysAPI.Set, refreshOptions, h, expiry]

/-- C1, as the code has it. For a Created loop with `refresh` whose node exists: with the stop flag
clear the cycle issues exactly the Set with PrevExist, Refresh and TTL 60 and an empty value;
with the stop flag set it issues nothing; in both cases every key holds the same value after
the cycle as before, the node at the path is still there with its value, and an unfaulted
refresh moves its expiry to 60 seconds from now. -/
theorem refresh_cycle_keeps_value (fault : Bool) (m : ServBaseV2) (l : RegLoop) (n : Node)
    (hc : l.isCreated = true) (hr : l.refresh = true)
    (hn : m.etcdClient.lookup m.now l.path = some n) :
    (m.isStop = false → (cycle fault m l).1.log = m.log ++ [Event.set l.path "" refreshOptions]) ∧
    (m.isStop = true → (cycle fault m l).1.log = m.log) ∧
    (∀ k, ((cycle fault m l).1.etcdClient.nodes k).map Node.Value
        = (m.etcdClient.nodes k).map Node.Value) ∧
    (∃ n2, (cycle fault m l).1.etcdClient.lookup (cycle fault m l).1.now l.path = some n2 ∧
      n2.Value = n.Value) ∧
    (m.isStop = false → fault = false →
      (cycle fault m l).1.etcdClient.nodes l.path
        = some { Value := n.Value, Expiration := some (m.now + 60) }) := by
  obtain ⟨hnode, halive⟩ := lookup_some _ _ _ _ hn
  by_cases hs : m.isStop = true
  · rw [cycle_of_stopped fault m l hs]
    simp [hs, hn]
  · have hs2 : m.isStop = false := by simpa using hs
    have hu : updateEtcd fault m l
        = ({ m with etcdClient := (m.etcdClient.Set m.now fault l.path "" refreshOptions).1,
                    log := m.log ++ [Event.set l.path "" refreshOptions] },
           { l with isCreated := (m.etcdClient.Set m.now fault l.path "" refreshOptions).2.isNone }) := by
      simp [updateEtcd, hc, hr, refreshOptions]
    rw [cycle_of_running fault m l hs2, hu, refresh_set _ _ fault _ n hn]
    cases fault
    · refine ⟨fun _ => rfl, fun h => absurd h hs, ?_, ?_, ?_⟩
      · intro k
        by_cases hk : k = l.path
        · subst hk; simp [KeysAPI.put, hnode]
        · simp [KeysAPI.put, hk]
      · refine ⟨{ Value := n.Value, Expiration := some (m.now + 60) }, ?_, rfl⟩
        simp [KeysAPI.lookup, KeysAPI.put, Node.alive]
      · intro _ _
        simp [KeysAPI.put]
    · refine ⟨fun _ => rfl, fun h => absurd h hs, fun k => rfl, ⟨n, ?_, rfl⟩, ?_⟩
      · simpa using hn
      · intro _ h; cases h

/-- Witness for C1: the refresh cycle on the running example leaves the operator-edited value. -/
theorem refresh_cycle_keeps_value_witness :
    exCreatedLoop.isCreated = true ∧ exCreatedLoop.refresh = true ∧
    exRunning.etcdClient.lookup exRunning.now exCreatedLoop.path
      = some { Value := "edited by hand", Expiration := some 60 } ∧
    (cycle false exRunning exCreatedLoop).1.etcdClient.nodes exPath
      = some { Value := "edited by hand", Expiration := some 80 } :=
  ⟨by decide, by decide, by decide,
    (refresh_cycle_keeps_value false exRunning exCreatedLoop
      { Value := "edited by hand", Expiration := some 60 } (by decide) (by decide)
      (by decide)).2.2.2.2 (by decide) rfl⟩

/-- Counterexample to C1 as stated: the registration is Created, refresh is on and the node
exists, but the stop flag is set, and the maintenance cycle issues no Set at all. -/
theorem refresh_cycle_without_set :
    exCreatedLoop.isCreated = true ∧ exCreatedLoop.refresh = true ∧
    exStopped.etcdClient.lookup exStopped.now exCreatedLoop.path
      = some { Value := "edited by hand", Expiration := some 60 } ∧
    (cycle false exStopped exCreatedLoop).1.log = exStopped.log ∧
    ¬ (cycle false exStopped exCreatedLoop).1.log
        = exStopped.log ++ [Event.set exCreatedLoop.path "" refreshOptions] := by
  decide

/-! ## Liveness under continuous maintenance -/

theorem plain_set (c : KeysAPI) (now : Nat) (key value : String) :
    c.Set now false key value { TTL := 60 }
      = (c.put key { Value := value, Expiration := some (now + 60) }, none) := by
  simp [KeysAPI.Set, expiry]

theorem updateEtcd_alive (m : ServBaseV2) (l : RegLoop)
    (h : l.isCreated = false ∨
      ∃ e, m.etcdClient.nodes l.path = some { Value := l.js, Expiration := some e } ∧
        m.now < e) :
    (updateEtcd false m l).1.etcdClient.nodes l.path
      = some { Value := l.js, Expiration := some (m.now + 60) } ∧
    (updateEtcd false m l).2.isCreated = true := by
  by_cases hc : l.isCreated = true
  · rcases h with h | ⟨e, h, he⟩
    · rw [hc] at h; cases h
    · by_cases hr : l.refresh = true
      · have hl : m.etcdClient.lookup m.now l.path
            = some { Value := l.js, Expiration := some e } := by
          simp [KeysAPI.lookup, h, Node.alive, he]
        have hs := refresh_set m.etcdClient m.now false l.path _ hl
        simp only [refreshOptions] at hs
        simp [updateEtcd, hc, hr, hs, KeysAPI.put]
      · simp [updateEtcd, hc, hr, plain_set, KeysAPI.put]
  · simp [updateEtcd, hc, plain_set, KeysAPI.put]

theorem delay_isStop (m : ServBaseV2) (d : Nat) (other : KeysAPI → KeysAPI) :
    (m.delay d other).isStop = m.isStop := rfl

/-- The invariant of an unfaulted scheduled run with the stop flag clear, at the start of round
`k`: the loop is running, and from the second round on the node holds `js` and expires 40
seconds from now. -/
theorem runSchedule_unfaulted (faults : Nat → Bool) (lat : Nat → Nat)
    (other : Nat → KeysAPI → KeysAPI) (m : ServBaseV2) (l : RegLoop)
    (hrun : m.isStop = false) (hpc : l.pc = LoopPc.atUpdate) (hnew : l.isCreated = false)
    (hf : ∀ i, faults i = false) (hlat : ∀ k, lat (k + 1) < 40)
    (hother : ∀ k c, (other k c).nodes l.path = c.nodes l.path) (k : Nat) :
    (runSchedule faults lat other k m l).1.isStop = false ∧
    (runSchedule faults lat other k m l).2.pc = LoopPc.atUpdate ∧
    (runSchedule faults lat other k m l).2.path = l.path ∧
    (runSchedule faults lat other k m l).2.js = l.js ∧
    ((k = 0 ∧ (runSchedule faults lat other k m l).2.isCreated = false) ∨
      (0 < k ∧ (runSchedule faults lat other k m l).1.etcdClient.nodes l.path
        = some { Value := l.js,
                 Expiration := some ((runSchedule faults lat other k m l).1.now + 40) })) := by
  induction k with
  | zero => simp [runSchedule, hrun, hpc, hnew]
  | succ k ih =>
    obtain ⟨h1, h2, h3, h4, h5⟩ := ih
    have hd : ((runSchedule faults lat other k m l).1.delay (lat k) (other k)).isStop = false := h1
    have hr := round_of_running (faults k) _ (runSchedule faults lat other k m l).2 hd
    have hfr := updateEtcd_frame (faults k)
      ((runSchedule faults lat other k m l).1.delay (lat k) (other k))
      (runSchedule faults lat other k m l).2
    have hu := updateEtcd_alive
      ((runSchedule faults lat other k m l).1.delay (lat k) (other k))
      (runSchedule faults lat other k m l).2
      (by
        rcases h5 with ⟨-, h5⟩ | ⟨hk, h5⟩
        · exact Or.inl h5
        · right
          refine ⟨(runSchedule faults lat other k m l).1.now + 40, ?_, ?_⟩
          · rw [h3, h4]
            simp only [ServBaseV2.delay]
            rw [hother, h5]
          · obtain ⟨j, rfl⟩ : ∃ j, k = j + 1 := ⟨k - 1, by omega⟩
            have := hlat j
            simp only [ServBaseV2.delay]
            omega)
    rw [← hf k, h3, h4] at hu
    simp only [runSchedule, h2, reduceCtorEq, if_false]
    refine ⟨hr.2.1, ?_, ?_, ?_, Or.inr ⟨Nat.succ_pos k, ?_⟩⟩
    · rw [hr.2.2]
    · rw [hr.2.2]; simp [hfr.2.2.2.1, h3]
    · rw [hr.2.2]; simp [hfr.2.2.2.2.1, h4]
    · rw [hr.1]
      simp only [ServBaseV2.sleep, hu.1, hfr.2.1]

/-- The state right after the update of round `k` of such a run: the node holds `js` and
expires 60 seconds from now; the next update comes `20 + lat (k + 1)` seconds later. -/
theorem updatedAt_unfaulted (faults : Nat → Bool) (lat : Nat → Nat)
    (other : Nat → KeysAPI → KeysAPI) (m : ServBaseV2) (l : RegLoop)
    (hrun : m.isStop = false) (hpc : l.pc = LoopPc.atUpdate) (hnew : l.isCreated = false)
    (hf : ∀ i, faults i = false) (hlat : ∀ k, lat (k + 1) < 40)
    (hother : ∀ k c, (other k c).nodes l.path = c.nodes l.path) (k : Nat) :
    (updatedAt faults lat other m l k).1.etcdClient.nodes l.path
      = some { Value := l.js,
               Expiration := some ((updatedAt faults lat other m l k).1.now + 60) } ∧
    (updatedAt faults lat other m l (k + 1)).1.now
      = (updatedAt faults lat other m l k).1.now + 20 + lat (k + 1) ∧
    (updatedAt faults lat other m l k).2.isCreated = true := by
  obtain ⟨h1, h2, h3, h4, h5⟩ :=
    runSchedule_unfaulted faults lat other m l hrun hpc hnew hf hlat hother k
  have hd : ((runSchedule faults lat other k m l).1.delay (lat k) (other k)).isStop = false := h1
  have hfr := updateEtcd_frame (faults k)
    ((runSchedule faults lat other k m l).1.delay (lat k) (other k))
    (runSchedule faults lat other k m l).2
  have hu := updateEtcd_alive
    ((runSchedule faults lat other k m l).1.delay (lat k) (other k))
    (runSchedule faults lat other k m l).2
    (by
      rcases h5 with ⟨-, h5⟩ | ⟨hk, h5⟩
      · exact Or.inl h5
      · right
        refine ⟨(runSchedule faults lat other k m l).1.now + 40, ?_, ?_⟩
        · rw [h3, h4]
          simp only [ServBaseV2.delay]
          rw [hother, h5]
        · obtain ⟨j, rfl⟩ : ∃ j, k = j + 1 := ⟨k - 1, by omega⟩
          have := hlat j
          simp only [ServBaseV2.delay]
          omega)
  rw [← hf k, h3, h4] at hu
  obtain ⟨g1, -⟩ :=
    runSchedule_unfaulted faults lat other m l hrun hpc hnew hf hlat hother (k + 1)
  have hd2 : ((runSchedule faults lat other (k + 1) m l).1.delay (lat (k + 1))
      (other (k + 1))).isStop = false := g1
  have hfr2 := updateEtcd_frame (faults (k + 1))
    ((runSchedule faults lat other (k + 1) m l).1.delay (lat (k + 1)) (other (k + 1)))
    (runSchedule faults lat other (k + 1) m l).2
  have hr := round_of_running (faults k) _ (runSchedule faults lat other k m l).2 hd
  have hnext : (runSchedule faults lat other (k + 1) m l).1.now
      = (updateEtcd (faults k)
          ((runSchedule faults lat other k m l).1.delay (lat k) (other k))
          (runSchedule faults lat other k m l).2).1.now + 20 := by
    simp only [runSchedule, h2, reduceCtorEq, if_false]
    rw [hr.1]
    rfl
  refine ⟨?_, ?_, ?_⟩
  · simp only [updatedAt]
    rw [cycle_of_running _ _ _ hd]
    rw [hu.1, hfr.2.1]
  · simp only [updatedAt]
    rw [cycle_of_running _ _ _ hd, cycle_of_running _ _ _ hd2, hfr2.2.1]
    show (runSchedule faults lat other (k + 1) m l).1.now + lat (k + 1) = _
    rw [hnext]
  · simp only [updatedAt]
    rw [cycle_of_running _ _ _ hd]
    exact hu.2

/-- Every instant from the first of an increasing, unbounded sequence of instants lies between
two consecutive ones. -/
theorem between_updates (u : Nat → Nat) (hu : ∀ k, u k < u (k + 1)) (t : Nat) (ht : u 0 ≤ t) :
    ∃ k, u k ≤ t ∧ t ≤ u (k + 1) := by
  have hgrow : ∀ n, u 0 + n ≤ u n := by
    intro n
    induction n with
    | zero => simp
    | succ n ih => have := hu n; omega
  have hfind : ∀ n, t < u n → ∃ k, u k ≤ t ∧ t ≤ u (k + 1) := by
    intro n
    induction n with
    | zero => intro h; omega
    | succ n ih =>
      intro h
      by_cases hn : t < u n
      · exact ih hn
      · exact ⟨n, by omega, by omega⟩
  exact hfind (t + 1) (by have := hgrow (t + 1); omega)

theorem runLoop_log (faults : Nat → Bool) (n : Nat) (m : ServBaseV2) (l : RegLoop) :
    (runLoop faults n m l).2.path = l.path ∧
    ∃ new, (runLoop faults n m l).1.log = m.log ++ new ∧
      ∀ e ∈ new, e = Event.sleep 20 ∨
        ∃ value opts, e = Event.set l.path value opts ∧ opts.TTL = 60 := by
  induction n with
  | zero => exact ⟨rfl, [], by simp [runLoop], by simp⟩
  | succ n ih =>
    obtain ⟨hp, new, hlog, hnew⟩ := ih
    simp only [runLoop]
    by_cases hx : (runLoop faults n m l).2.pc = LoopPc.exited
    · simp only [hx, if_true]
      exact ⟨hp, new, hlog, hnew⟩
    · simp only [hx, if_false]
      have haf := afterCycle_frame (cycle (faults n) (runLoop faults n m l).1
        (runLoop faults n m l).2).1 (cycle (faults n) (runLoop faults n m l).1
        (runLoop faults n m l).2).2
      by_cases hs : (runLoop faults n m l).1.isStop = true
      · have hc := cycle_of_stopped (faults n) _ (runLoop faults n m l).2 hs
        rw [hc] at haf
        refine ⟨?_, new ++ [Event.sleep 20], ?_, ?_⟩
        · simp only [round, hc]; rw [haf.2.1, hp]
        · simp only [round, hc]; rw [haf.1]; simp [ServBaseV2.sleep, hlog]
        · intro e he
          rcases List.mem_append.1 he with he | he
          · exact hnew e he
          · left; simpa using he
      · have hs2 : (runLoop faults n m l).1.isStop = false := by simpa using hs
        have hc := cycle_of_running (faults n) _ (runLoop faults n m l).2 hs2
        obtain ⟨value, opts, hl, -, -, -, -, httl⟩ :=
          updateEtcd_spec (faults n) (runLoop faults n m l).1 (runLoop faults n m l).2
        have hfr := updateEtcd_frame (faults n) (runLoop faults n m l).1 (runLoop faults n m l).2
        rw [hc] at haf
        refine ⟨?_, new ++ [Event.set l.path value opts, Event.sleep 20], ?_, ?_⟩
        · simp only [round, hc]; rw [haf.2.1, hfr.2.2.2.1, hp]
        · simp only [round, hc]; rw [haf.1]; simp [ServBaseV2.sleep, hl, hlog, hp]
        · intro e he
          rcases List.mem_append.1 he with he | he
          · exact hnew e he
          · simp only [List.mem_cons, List.mem_singleton, List.not_mem_nil, or_false] at he
            rcases he with he | he
            · right; exact ⟨value, opts, he, httl⟩
            · left; exact he

/-- C2, as the code has it. Every Set the maintenance loop issues carries TTL 60 (a cycle logs
nothing or one such Set, and the log of a run holds only such Sets and sleeps of 20 seconds); a
round ends 20 seconds after its update.
Take the loop that `doRegister` starts and a run in which the stop flag is clear, no write is
faulted, whatever else changes the store leaves the node at the path alone, and every update
after the first starts fewer than 40 seconds after the preceding sleep ended (`lat`). Then the
first update is a plain write of `js`; consecutive updates are `20 + lat` seconds apart; and at
every instant `t` from the first update on, in the store as the latest update left it, the node
at the path exists, holds `js` and has remaining TTL greater than zero. -/
theorem registration_liveness (faults : Nat → Bool) (lat : Nat → Nat)
    (other : Nat → KeysAPI → KeysAPI) (m : ServBaseV2) (path js : String) (refresh : Bool)
    (hrun : m.isStop = false) (hf : ∀ i, faults i = false) (hlat : ∀ k, lat (k + 1) < 40)
    (hother : ∀ k c, (other k c).nodes path = c.nodes path) :
    (∀ (fs : Nat → Bool) (n : Nat) (m2 : ServBaseV2) (l : RegLoop),
      ∃ new, (runLoop fs n m2 l).1.log = m2.log ++ new ∧
        ∀ e ∈ new, e = Event.sleep 20 ∨
          ∃ value opts, e = Event.set l.path value opts ∧ opts.TTL = 60) ∧
    (∀ (fault : Bool) (m2 : ServBaseV2) (l : RegLoop),
      (cycle fault m2 l).1.log = m2.log ∨
      ∃ value opts, (cycle fault m2 l).1.log = m2.log ++ [Event.set l.path value opts] ∧
        opts.TTL = 60) ∧
    (∀ (fault : Bool) (m2 : ServBaseV2) (l : RegLoop),
      (round fault m2 l).1.now = (cycle fault m2 l).1.now + 20 ∧
      (round fault m2 l).1.log = (cycle fault m2 l).1.log ++ [Event.sleep 20]) ∧
    (updatedAt faults lat other m { path := path, js := js, refresh := refresh } 0).1.log
      = m.log ++ [Event.set path js { TTL := 60 }] ∧
    (∀ k, (updatedAt faults lat other m { path := path, js := js, refresh := refresh }
        (k + 1)).1.now
      = (updatedAt faults lat other m { path := path, js := js, refresh := refresh } k).1.now
          + 20 + lat (k + 1)) ∧
    (∀ t, (updatedAt faults lat other m { path := path, js := js, refresh := refresh } 0).1.now
        ≤ t →
      ∃ k n,
        (updatedAt faults lat other m { path := path, js := js, refresh := refresh } k).1.now
          ≤ t ∧
        t ≤ (updatedAt faults lat other m { path := path, js := js, refresh := refresh }
          (k + 1)).1.now ∧
        (updatedAt faults lat other m { path := path, js := js, refresh := refresh }
          k).1.etcdClient.lookup t path = some n ∧
        n.Value = js ∧ ∃ r, n.ttl t = some r ∧ 0 < r) := by
  have hall := updatedAt_unfaulted faults lat other m
    { path := path, js := js, refresh := refresh } hrun rfl rfl hf hlat hother
  refine ⟨?_, ?_, ?_, ?_, ?_, ?_⟩
  · intro fs n m2 l
    exact (runLoop_log fs n m2 l).2
  · intro fault m2 l
    by_cases hs : m2.isStop = true
    · left; rw [cycle_of_stopped fault m2 l hs]
    · right
      obtain ⟨value, opts, hlog, -, -, -, -, httl⟩ := updateEtcd_spec fault m2 l
      rw [cycle_of_running fault m2 l (by simpa using hs)]
      exact ⟨value, opts, hlog, httl⟩
  · intro fault m2 l
    have h := (afterCycle_frame (cycle fault m2 l).1 (cycle fault m2 l).2).1
    simp only [round]
    rw [h]
    simp [ServBaseV2.sleep]
  · simp only [updatedAt, runSchedule]
    rw [cycle_of_running _ _ _ (by exact hrun)]
    simp [updateEtcd, ServBaseV2.delay]
  · intro k
    exact (hall k).2.1
  · intro t ht
    obtain ⟨k, hk1, hk2⟩ := between_updates
      (fun k => (updatedAt faults lat other m
        { path := path, js := js, refresh := refresh } k).1.now)
      (fun k => by have := (hall k).2.1; simp only; omega) t ht
    have hnext := (hall k).2.1
    have hl := hlat k
    refine ⟨k, { Value := js, Expiration := some ((updatedAt faults lat other m
        { path := path, js := js, refresh := refresh } k).1.now + 60) }, hk1, hk2, ?_, rfl,
      (updatedAt faults lat other m
        { path := path, js := js, refresh := refresh } k).1.now + 60 - t, ?_, ?_⟩
    · have hn := (hall k).1
      simp only at hn
      simp only [KeysAPI.lookup, hn, Node.alive]
      have : t < (updatedAt faults lat other m
          { path := path, js := js, refresh := refresh } k).1.now + 60 := by omega
      simp [this]
    · simp [Node.ttl]
    · omega

/-- Witness for C2: the scenario of the spec, with every update starting 3 seconds after the
preceding sleep ended. 65 seconds after registration the latest update is that of round 2, at
second 49; the node holds the original payload and expires at second 109. -/
theorem registration_liveness_witness :
    exFacade.isStop = false ∧
    (updatedAt (fun _ => false) (fun _ => 3) (fun _ c => c) exFacade exNewLoop 2).1.now = 49 ∧
    (updatedAt (fun _ => false) (fun _ => 3) (fun _ c => c) exFacade exNewLoop
        2).1.etcdClient.lookup 65 exPath
      = some { Value := exPayload, Expiration := some 109 } ∧
    ∃ k n,
      (updatedAt (fun _ => false) (fun _ => 3) (fun _ c => c) exFacade
        { path := exPath, js := exPayload, refresh := true } k).1.now ≤ 65 ∧
      65 ≤ (updatedAt (fun _ => false) (fun _ => 3) (fun _ c => c) exFacade
        { path := exPath, js := exPayload, refresh := true } (k + 1)).1.now ∧
      (updatedAt (fun _ => false) (fun _ => 3) (fun _ c => c) exFacade
        { path := exPath, js := exPayload, refresh := true } k).1.etcdClient.lookup 65 exPath
        = some n ∧
      n.Value = exPayload ∧ ∃ r, n.ttl 65 = some r ∧ 0 < r :=
  ⟨by decide, by decide, by decide,
    (registration_liveness (fun _ => false) (fun _ => 3) (fun _ c => c) exFacade exPath
      exPayload true (by decide) (fun _ => rfl) (fun _ => show (3 : Nat) < 40 by decide)
      (fun _ _ => rfl)).2.2.2.2.2 65 (by decide)⟩

/-- Counterexample to C2 as stated. First run: register, first update (its Set succeeds), the
20 second sleep and stop check, then 41 seconds in which the loop is not scheduled; the stop
flag is clear and no write has failed, yet at second 61 the node at the path is gone. Second
run: the path is registered with `p1` and then with `p2` and both loops do their first update;
the stop flag is clear and both Sets succeed, yet the node holds `p2`, not the payload `p1`
written by the first cycle. -/
theorem registration_expires_or_changes :
    Reachable exDrain exSys0 exLate4 ∧
    exLate4.m.isStop = false ∧
    exLate4.m.log = [Event.set exPath exPayload { TTL := 60 }, Event.sleep 20] ∧
    exLate4.m.loops = [{ exNewLoop with isCreated := true, i := 1 }] ∧
    exLate4.m.now = 61 ∧
    exLate4.m.etcdClient.lookup exLate4.m.now exPath = none ∧
    Reachable exDrain exSys0 exTwo4 ∧
    exTwo4.m.isStop = false ∧
    exTwo4.m.log = [Event.set exPath "p1" { TTL := 60 }, Event.set exPath "p2" { TTL := 60 }] ∧
    exTwo4.m.loops.map RegLoop.isCreated = [true, true] ∧
    exTwo4.m.etcdClient.lookup exTwo4.m.now exPath
      = some { Value := "p2", Expiration := some 60 } :=
  have hlate : Reachable exDrain exSys0 exLate4 :=
    Reachable.step exLate3 exLate4
      (Reachable.step exSys2 exLate3
        (Reachable.step exSys1 exSys2
          (Reachable.step exSys0 exSys1 Reachable.init
            (Step.register exSys0 exPath exPayload true))
          (Step.update exSys1 0 exNewLoop false rfl rfl))
        (Step.wake exSys2 0 exSleepingLoop (by decide) rfl))
      (Step.tick exLate3 41)
  have htwo : Reachable exDrain exSys0 exTwo4 :=
    Reachable.step exTwo3 exTwo4
      (Reachable.step exTwo2 exTwo3
        (Reachable.step exTwo1 exTwo2
          (Reachable.step exSys0 exTwo1 Reachable.init
            (Step.register exSys0 exPath "p1" true))
          (Step.register exTwo1 exPath "p2" true))
        (Step.update exTwo2 0 { path := exPath, js := "p1", refresh := true } false rfl rfl))
      (Step.update exTwo3 1 { path := exPath, js := "p2", refresh := true } false
        (by decide) rfl)
  ⟨hlate, by decide, by decide, by decide, by decide, by decide,
    htwo, by decide, by decide, by decide, by decide⟩

/-! ## No write after stop -/

theorem noSetAfterShutdown_append (log new : List Event) (h : NoSetAfterShutdown log)
    (hnew : ∀ e ∈ new, e.isSet = false) : NoSetAfterShutdown (log ++ new) := by
  intro pre post e heq he e2 he2
  rcases List.append_eq_append_iff.1 heq with ⟨a, hpre, hn⟩ | ⟨c, hlog, hc⟩
  · exact hnew e2 (by rw [hn]; simp [he2])
  · cases c with
    | nil =>
      simp only [List.nil_append] at hc
      exact hnew e2 (by rw [← hc]; simp [he2])
    | cons x c =>
      simp only [List.cons_append, List.cons.injEq] at hc
      obtain ⟨hx, hpost⟩ := hc
      subst hx
      rw [hpost] at he2
      rcases List.mem_append.1 he2 with h2 | h2
      · exact h pre c e hlog he e2 h2
      · exact hnew e2 h2

theorem noSetAfterShutdown_of_none (log : List Event)
    (h : ∀ e ∈ log, e.isShutdown = false) : NoSetAfterShutdown log := by
  intro pre post e heq he
  have : e ∈ log := by rw [heq]; simp
  rw [h e this] at he
  cases he

theorem deleteAll_frame (faults : String → Bool) (ps : List String) (m : ServBaseV2) :
    (deleteAll faults ps m).1.log = m.log ++ ps.map (fun p => Event.delete p true) ∧
    (deleteAll faults ps m).1.stop = m.stop ∧ (deleteAll faults ps m).1.now = m.now ∧
    (deleteAll faults ps m).1.onShutdown = m.onShutdown ∧
    (deleteAll faults ps m).1.regInfos = m.regInfos ∧
    (deleteAll faults ps m).1.crossRegisterClients = m.crossRegisterClients := by
  induction ps generalizing m with
  | nil => simp [deleteAll]
  | cons p ps ih =>
    have h := ih { m with etcdClient := (m.etcdClient.Delete m.now (faults p) p true).1,
                          log := m.log ++ [Event.delete p true] }
    simp only [deleteAll]
    split <;> simpa using h

theorem stopInv_step
    (drain : List (String × String) → List (String × KeysAPI) → List (String × KeysAPI) × Nat)
    (s t : Sys) (hinv : StopInv s) (hstep : Step drain s t) : StopInv t := by
  obtain ⟨h1, h2, h3⟩ := hinv
  cases hstep with
  | register path js refresh => exact ⟨h1, h2, h3⟩
  | update k l fault hk hpc =>
    by_cases hs : s.m.isStop = true
    · rw [cycle_of_stopped fault s.m l hs]
      exact ⟨h1, h2, h3⟩
    · have hs2 : s.m.isStop = false := by simpa using hs
      obtain ⟨value, opts, hlog, -⟩ := updateEtcd_spec fault s.m l
      have hfr := updateEtcd_frame fault s.m l
      have hnone : ∀ e ∈ s.m.log ++ [Event.set l.path value opts], e.isShutdown = false := by
        intro e he
        rcases List.mem_append.1 he with he | he
        · exact h2 hs2 e he
        · simp only [List.mem_singleton] at he
          subst he; rfl
      rw [cycle_of_running fault s.m l hs2]
      refine ⟨?_, ?_, ?_⟩
      · intro hpc2
        exact absurd (h1 hpc2) hs
      · intro _
        simp only [ServBaseV2.setLoop, hlog]
        exact hnone
      · simp only [ServBaseV2.setLoop, hlog]
        exact noSetAfterShutdown_of_none _ hnone
  | wake k l hk hpc =>
    have haf := (afterCycle_frame s.m l).1
    refine ⟨?_, ?_, ?_⟩
    · intro hpc2
      have := h1 hpc2
      simp only [ServBaseV2.setLoop, haf]
      exact this
    · intro hs e he
      simp only [ServBaseV2.setLoop, haf, ServBaseV2.sleep] at hs he
      rcases List.mem_append.1 he with he | he
      · exact h2 hs e he
      · simp only [List.mem_singleton] at he
        subst he; rfl
    · simp only [ServBaseV2.setLoop, haf, ServBaseV2.sleep]
      exact noSetAfterShutdown_append _ _ h3 (by simp [Event.isSet])
  | tick d => exact ⟨h1, h2, h3⟩
  | stopFlag hpc =>
    refine ⟨fun _ => rfl, ?_, ?_⟩
    · intro hs
      simp [ServBaseV2.setStatusToStop, ServBaseV2.isStop] at hs
    · simp only [ServBaseV2.setStatusToStop]
      exact noSetAfterShutdown_append _ _ h3 (by simp [Event.isSet])
  | grace hpc =>
    have hs : s.m.isStop = true := h1 (by rw [hpc]; decide)
    refine ⟨fun _ => hs, ?_, ?_⟩
    · intro h
      have h' : s.m.isStop = false := h
      rw [hs] at h'; cases h'
    · simp only [ServBaseV2.sleep]
      exact noSetAfterShutdown_append _ _ h3 (by simp [Event.isSet])
  | clear faults hpc =>
    have hs : s.m.isStop = true := h1 (by rw [hpc]; decide)
    have hfr := deleteAll_frame faults (s.m.regInfos.map Prod.fst) s.m
    have hs2 : (deleteAll faults (s.m.regInfos.map Prod.fst) s.m).1.isStop = true := by
      simp only [ServBaseV2.isStop, hfr.2.1]
      exact hs
    refine ⟨fun _ => hs2, ?_, ?_⟩
    · intro h; simp only at h; rw [hs2] at h; cases h
    · simp only [hfr.1]
      refine noSetAfterShutdown_append _ _ h3 ?_
      intro e he
      simp only [List.mem_map] at he
      obtain ⟨p, -, he⟩ := he
      subst he; rfl
  | cross hpc =>
    have hs : s.m.isStop = true := h1 (by rw [hpc]; decide)
    refine ⟨fun _ => hs, ?_, ?_⟩
    · intro h
      have h' : s.m.isStop = false := h
      rw [hs] at h'; cases h'
    · simp only [ServBaseV2.clearCrossDCRegisterInfos]
      exact noSetAfterShutdown_append _ _ h3 (by simp [Event.isSet])
  | hook hpc =>
    have hs : s.m.isStop = true := h1 (by rw [hpc]; decide)
    refine ⟨fun _ => hs, ?_, ?_⟩
    · intro h
      have h' : s.m.isStop = false := h
      rw [hs] at h'; cases h'
    · simp only [ServBaseV2.runOnShutdown, List.append_assoc]
      exact noSetAfterShutdown_append _ _ h3 (by simp [Event.isSet])

theorem stopInv_reachable
    (drain : List (String × String) → List (String × KeysAPI) → List (String × KeysAPI) × Nat)
    (s0 s : Sys) (h0 : s0.fresh) (hr : Reachable drain s0 s) : StopInv s := by
  induction hr with
  | init =>
    obtain ⟨hstop, -, hlog, -, hpc⟩ := h0
    refine ⟨fun h => absurd hpc h, ?_, ?_⟩
    · intro _ e he; rw [hlog] at he; cases he
    · rw [hlog]; exact noSetAfterShutdown_of_none _ (by simp)
  | step s t _ hstep ih => exact stopInv_step drain s t ih hstep

/-- C3. With the stop flag set, `withRegLockRunClosureBeforeStop` returns without running its
closure, so a maintenance cycle leaves the facade and its log as they were (no Set), and the
round ends, after its 20 second sleep, with the loop returned. In every state the process
reaches from a fresh facade by interleaving registrations, loop updates, loop wake-ups and the
phases of `Stop` (flag, grace sleep, deletion loop, cross-DC drain, hook), no Set follows a Delete of `clearRegisterInfos` or the return of `Stop` in
the log. -/
theorem no_write_after_stop
    (drain : List (String × String) → List (String × KeysAPI) → List (String × KeysAPI) × Nat)
    (s0 s : Sys) (h0 : s0.fresh) (hr : Reachable drain s0 s) :
    (∀ (σ : Type) (m : ServBaseV2) (x : σ) (f : ServBaseV2 → σ → ServBaseV2 × σ),
      m.isStop = true → withRegLockRunClosureBeforeStop m x f = (m, x)) ∧
    (∀ (fault : Bool) (m : ServBaseV2) (l : RegLoop), m.isStop = true →
      cycle fault m l = (m, l) ∧
      (round fault m l).1.log = m.log ++ [Event.sleep 20] ∧
      (round fault m l).2.pc = LoopPc.exited) ∧
    NoSetAfterShutdown s.m.log := by
  refine ⟨?_, ?_, (stopInv_reachable drain s0 s h0 hr).2.2⟩
  · intro σ m x f h
    simp [withRegLockRunClosureBeforeStop, h]
  · intro fault m l h
    have hs : (m.sleep 20).isStop = true := h
    refine ⟨cycle_of_stopped fault m l h, ?_, ?_⟩
    · simp only [round, cycle_of_stopped fault m l h, afterCycle, hs, if_true]
      simp [ServBaseV2.sleep]
    · simp only [round, cycle_of_stopped fault m l h, afterCycle, hs, if_true]

/-- Witness for C3: register, first update, stop flag, deletion loop. The log of the state
reached has the Set before the Delete. -/
theorem no_write_after_stop_witness :
    exSys0.fresh ∧ Reachable exDrain exSys0 exSys5 ∧
    exSys5.m.log = [Event.set exPath exPayload { TTL := 60 }, Event.stopFlag, Event.sleep 2,
      Event.delete exPath true] ∧
    NoSetAfterShutdown exSys5.m.log :=
  have h0 : exSys0.fresh := ⟨rfl, rfl, rfl, rfl, rfl⟩
  have hr : Reachable exDrain exSys0 exSys5 :=
    Reachable.step exSys4 exSys5
      (Reachable.step exSys3 exSys4
        (Reachable.step exSys2 exSys3
          (Reachable.step exSys1 exSys2
            (Reachable.step exSys0 exSys1 Reachable.init
              (Step.register exSys0 exPath exPayload true))
            (Step.update exSys1 0 exNewLoop false rfl rfl))
          (Step.stopFlag exSys2 rfl))
        (Step.grace exSys3 rfl))
      (Step.clear exSys4 (fun _ => false) rfl)
  ⟨h0, hr, by decide, (no_write_after_stop exDrain exSys0 exSys5 h0 hr).2.2⟩

/-! ## The shutdown sequence -/

theorem isUnder_self (key : String) : isUnder key key = true := by
  simp [isUnder]

theorem delete_absent (c : KeysAPI) (now : Nat) (fault : Bool) (key k : String) (r : Bool)
    (h : c.nodes k = none) : (c.Delete now fault key r).1.nodes k = none := by
  unfold KeysAPI.Delete
  cases fault
  · cases hl : c.lookup now key with
    | none => simpa using h
    | some n =>
      cases r
      · by_cases hk : k = key <;> simp [KeysAPI.remove, hk, h]
      · by_cases hk : isUnder key k = true <;> simp [KeysAPI.removeTree, hk, h]
  · simpa using h

theorem delete_done (c : KeysAPI) (now : Nat) (fault : Bool) (key : String)
    (h : (c.Delete now fault key true).2 = none) :
    (c.Delete now fault key true).1.nodes key = none := by
  unfold KeysAPI.Delete at h ⊢
  cases fault
  · cases hl : c.lookup now key with
    | none => simp [hl] at h
    | some n => simp [KeysAPI.removeTree, isUnder_self]
  · simp at h

theorem deleteAll_absent (faults : String → Bool) (ps : List String) (m : ServBaseV2)
    (k : String) (h : m.etcdClient.nodes k = none) :
    (deleteAll faults ps m).1.etcdClient.nodes k = none := by
  induction ps generalizing m with
  | nil => simpa [deleteAll] using h
  | cons p ps ih =>
    have h2 := ih { m with etcdClient := (m.etcdClient.Delete m.now (faults p) p true).1,
                           log := m.log ++ [Event.delete p true] }
      (delete_absent _ _ _ _ _ _ h)
    simp only [deleteAll]
    split <;> simpa using h2

theorem deleteAll_done (faults : String → Bool) (ps : List String) (m : ServBaseV2)
    (h : (deleteAll faults ps m).2 = []) :
    ∀ p ∈ ps, (deleteAll faults ps m).1.etcdClient.nodes p = none := by
  induction ps generalizing m with
  | nil => intro p hp; cases hp
  | cons q ps ih =>
    intro p hp
    simp only [deleteAll] at h ⊢
    cases he : (m.etcdClient.Delete m.now (faults q) q true).2 with
    | some err => simp [he] at h
    | none =>
      simp only [he] at h ⊢
      rcases List.mem_cons.1 hp with hpq | hps
      · subst hpq
        exact deleteAll_absent faults ps _ p (delete_done _ _ _ _ he)
      · exact ih _ h p hps

theorem count_delete_events (ps : List String) (hnd : ps.Nodup) (p : String) (r : Bool) :
    (ps.map (fun q => Event.delete q true)).count (Event.delete p r)
      = if r = true ∧ p ∈ ps then 1 else 0 := by
  induction ps with
  | nil => simp
  | cons q ps ih =>
    obtain ⟨hq, hnd2⟩ := List.nodup_cons.1 hnd
    rw [List.map_cons, List.count_cons, ih hnd2]
    by_cases hr : r = true
    · subst hr
      by_cases hpq : p = q
      · subst hpq
        simp [hq]
      · have : ¬ q = p := fun h => hpq h.symm
        simp [hpq, this]
    · simp [hr]

theorem stop_log (m : ServBaseV2)
    (drain : List (String × String) → List (String × KeysAPI) → List (String × KeysAPI) × Nat)
    (faults : String → Bool) :
    (m.beforeHook drain faults).log
      = m.log ++ ([Event.stopFlag, Event.sleep 2]
          ++ (m.regInfos.map Prod.fst).map (fun p => Event.delete p true)
          ++ [Event.crossDrain]) ∧
    (m.beforeHook drain faults).onShutdown = m.onShutdown ∧
    (m.beforeHook drain faults).etcdClient
      = (m.setStatusToStop.clearRegisterInfos faults).1.etcdClient := by
  have hfr := deleteAll_frame faults (m.setStatusToStop.regInfos.map Prod.fst)
    (m.setStatusToStop.sleep 2)
  refine ⟨?_, ?_, rfl⟩
  · simp only [ServBaseV2.beforeHook, ServBaseV2.clearCrossDCRegisterInfos,
      ServBaseV2.clearRegisterInfos, hfr.1]
    simp [ServBaseV2.sleep, ServBaseV2.setStatusToStop]
  · simp only [ServBaseV2.beforeHook, ServBaseV2.clearCrossDCRegisterInfos,
      ServBaseV2.clearRegisterInfos, hfr.2.2.2.1]
    rfl

/-- C4. The effects of `Stop`, in order: the stop flag is set, 2 seconds pass, one recursive
Delete is issued for each recorded path in turn (whatever the earlier Deletes returned), the
cross-DC drain runs, the hook is invoked, last. Among these effects a Delete of path `p` occurs
once when `p` is a recorded path and the Delete is recursive, and not at all otherwise; the hook
occurs once. The Deletes are issued 2 seconds after the call. When no Delete returned an error,
no recorded path has a node in the primary store in the state in which the hook is invoked. -/
theorem stop_sequence (m : ServBaseV2)
    (drain : List (String × String) → List (String × KeysAPI) → List (String × KeysAPI) × Nat)
    (faults : String → Bool) (hmap : (m.regInfos.map Prod.fst).Nodup) :
    (m.Stop drain faults).log
      = m.log ++ ([Event.stopFlag, Event.sleep 2]
          ++ (m.regInfos.map Prod.fst).map (fun p => Event.delete p true)
          ++ [Event.crossDrain, Event.shutdownHook m.onShutdown]) ∧
    m.setStatusToStop.isStop = true ∧
    (m.setStatusToStop.clearRegisterInfos faults).1.now = m.now + 2 ∧
    (∀ p r, ((m.Stop drain faults).log.drop m.log.length).count (Event.delete p r)
      = if r = true ∧ p ∈ m.regInfos.map Prod.fst then 1 else 0) ∧
    ((m.Stop drain faults).log.drop m.log.length).count (Event.shutdownHook m.onShutdown) = 1 ∧
    (m.Stop drain faults).log
      = (m.beforeHook drain faults).log ++ [Event.shutdownHook m.onShutdown] ∧
    ((m.setStatusToStop.clearRegisterInfos faults).2 = [] →
      ∀ p ∈ m.regInfos.map Prod.fst, ∀ t,
        (m.beforeHook drain faults).etcdClient.lookup t p = none) := by
  obtain ⟨hlog, hhook, hstore⟩ := stop_log m drain faults
  have hfull : (m.Stop drain faults).log
      = m.log ++ ([Event.stopFlag, Event.sleep 2]
          ++ (m.regInfos.map Prod.fst).map (fun p => Event.delete p true)
          ++ [Event.crossDrain, Event.shutdownHook m.onShutdown]) := by
    simp only [ServBaseV2.Stop, ServBaseV2.runOnShutdown, hlog, hhook]
    simp
  refine ⟨hfull, rfl, ?_, ?_, ?_, ?_, ?_⟩
  · have hfr := deleteAll_frame faults (m.setStatusToStop.regInfos.map Prod.fst)
      (m.setStatusToStop.sleep 2)
    simp only [ServBaseV2.clearRegisterInfos, hfr.2.2.1]
    rfl
  · intro p r
    rw [hfull, List.drop_left, List.count_append, List.count_append,
      count_delete_events _ hmap p r]
    simp
  · rw [hfull, List.drop_left, List.count_append, List.count_append]
    have h0 : ((m.regInfos.map Prod.fst).map (fun p => Event.delete p true)).count
        (Event.shutdownHook m.onShutdown) = 0 := by
      apply List.count_eq_zero_of_not_mem
      simp
    rw [h0]
    simp
  · simp only [ServBaseV2.Stop, ServBaseV2.runOnShutdown, hhook]
  · intro herr p hp t
    have hd := deleteAll_done faults (m.setStatusToStop.regInfos.map Prod.fst)
      (m.setStatusToStop.sleep 2) herr p hp
    rw [hstore]
    simp only [ServBaseV2.clearRegisterInfos, KeysAPI.lookup, hd]

/-- Witness for C4: the scenario of the spec. `Stop` on a facade with three registered paths
deletes the three nodes, then runs the hook once, last. -/
theorem stop_sequence_witness :
    (exThree.regInfos.map Prod.fst).Nodup ∧
    (exThree.Stop exDrain (fun _ => false)).log
      = [Event.stopFlag, Event.sleep 2,
         Event.delete "/roc/dist2/groupA/svcB/7/serve" true,
         Event.delete "/roc/dist2/groupA/svcB/7/backdoor" true,
         Event.delete "/roc/dist2/groupA/svcB/7/metrics" true,
         Event.crossDrain, Event.shutdownHook 9] ∧
    (exThree.setStatusToStop.clearRegisterInfos (fun _ => false)).2 = [] ∧
    ∀ p ∈ exThree.regInfos.map Prod.fst, ∀ t,
      (exThree.beforeHook exDrain (fun _ => false)).etcdClient.lookup t p = none :=
  ⟨by decide, by decide, by decide,
    (stop_sequence exThree exDrain (fun _ => false) (by decide)).2.2.2.2.2.2 (by decide)⟩

/-! ## Repeated registration of one path -/

theorem mapSet_mapSet (l : List (String × String)) (k a b : String) :
    mapSet (mapSet l k a) k b = mapSet l k b := by
  induction l with
  | nil => simp [mapSet]
  | cons x t ih =>
    obtain ⟨k2, v2⟩ := x
    by_cases h : k2 = k
    · simp [mapSet, h]
    · simp [mapSet, h, ih]

theorem mapSet_mem (l : List (String × String)) (k v : String) : (k, v) ∈ mapSet l k v := by
  induction l with
  | nil => simp [mapSet]
  | cons x t ih =>
    obtain ⟨k2, v2⟩ := x
    by_cases h : k2 = k
    · simp [mapSet, h]
    · simp [mapSet, h, ih]

theorem mapSet_keys (l : List (String × String)) (k v : String) :
    (mapSet l k v).map Prod.fst
      = if k ∈ l.map Prod.fst then l.map Prod.fst else l.map Prod.fst ++ [k] := by
  induction l with
  | nil => simp [mapSet]
  | cons x t ih =>
    obtain ⟨k2, v2⟩ := x
    by_cases h : k2 = k
    · simp [mapSet, h]
    · have h2 : ¬ k = k2 := fun e => h e.symm
      simp only [mapSet, h, if_false, List.map_cons, ih, List.mem_cons, h2, false_or]
      split <;> simp

theorem mapSet_nodup (l : List (String × String)) (k v : String)
    (h : (l.map Prod.fst).Nodup) : ((mapSet l k v).map Prod.fst).Nodup := by
  rw [mapSet_keys]
  split
  · exact h
  · rename_i hk
    exact List.Nodup.append h (List.nodup_singleton k) (by simpa using hk)

/-- C6, as the code has it. After `doRegister(path, p1, true)` and `doRegister(path, p2, true)`
the registry is the one a single `doRegister(path, p2, true)` leaves: its keys are distinct, the
path occurs once among them and is bound to `p2`. The goroutines differ: each call has started
a loop of its own, so two loops for the path have been added where the single call adds one,
and the loop of the first call writes `p1` at the path whenever it runs a create cycle. -/
theorem doRegister_twice (m : ServBaseV2) (path p1 p2 : String)
    (hmap : (m.regInfos.map Prod.fst).Nodup) :
    ((m.doRegister path p1 true).1.doRegister path p2 true).1.regInfos
      = (m.doRegister path p2 true).1.regInfos ∧
    (((m.doRegister path p1 true).1.doRegister path p2 true).1.regInfos.map Prod.fst).Nodup ∧
    (((m.doRegister path p1 true).1.doRegister path p2 true).1.regInfos.map Prod.fst).count path
      = 1 ∧
    (path, p2) ∈ ((m.doRegister path p1 true).1.doRegister path p2 true).1.regInfos ∧
    ((m.doRegister path p1 true).1.doRegister path p2 true).1.loops
      = m.loops ++ [{ path := path, js := p1, refresh := true },
                    { path := path, js := p2, refresh := true }] ∧
    (m.doRegister path p2 true).1.loops = m.loops ++ [{ path := path, js := p2, refresh := true }] ∧
    (∀ fault m2, m2.isStop = false →
      (cycle fault m2 { path := path, js := p1, refresh := true }).1.log
        = m2.log ++ [Event.set path p1 { TTL := 60 }]) := by
  have hreg : ((m.doRegister path p1 true).1.doRegister path p2 true).1.regInfos
      = mapSet m.regInfos path p2 := by
    simp [ServBaseV2.doRegister, ServBaseV2.addRegisterInfo, mapSet_mapSet]
  have hnd := mapSet_nodup m.regInfos path p2 hmap
  refine ⟨?_, ?_, ?_, ?_, ?_, ?_, ?_⟩
  · rw [hreg]; simp [ServBaseV2.doRegister, ServBaseV2.addRegisterInfo]
  · rw [hreg]; exact hnd
  · rw [hreg]
    apply List.count_eq_one_of_mem hnd
    exact List.mem_map.2 ⟨(path, p2), mapSet_mem _ _ _, rfl⟩
  · rw [hreg]; exact mapSet_mem _ _ _
  · simp [ServBaseV2.doRegister, ServBaseV2.addRegisterInfo]
  · simp [ServBaseV2.doRegister, ServBaseV2.addRegisterInfo]
  · intro fault m2 h2
    rw [cycle_of_running fault m2 _ h2]
    simp [updateEtcd]

/-- Witness for C6: two registrations of the example path on the example facade. -/
theorem doRegister_twice_witness :
    (exFacade.regInfos.map Prod.fst).Nodup ∧
    ((exFacade.doRegister exPath "p1" true).1.doRegister exPath "p2" true).1.regInfos
      = [(exPath, "p2")] ∧
    ((exFacade.doRegister exPath "p1" true).1.doRegister exPath "p2" true).1.loops
      = [{ path := exPath, js := "p1", refresh := true },
         { path := exPath, js := "p2", refresh := true }] :=
  ⟨by decide, by decide,
    (doRegister_twice exFacade exPath "p1" "p2" (by decide)).2.2.2.2.1⟩

/-- Counterexample to C6 as stated: after registering the example path with `p1` and then with
`p2` there are two maintenance loops for the path, not the one loop a single registration
leaves, and the first of them still writes `p1` at the path in its next cycle. Registering
twice with the same payload also leaves two loops. -/
theorem doRegister_twice_keeps_first_loop :
    ((exFacade.doRegister exPath "p1" true).1.doRegister exPath "p2" true).1.loops
      ≠ (exFacade.doRegister exPath "p2" true).1.loops ∧
    ((exFacade.doRegister exPath "p1" true).1.doRegister exPath "p2" true).1.loops.length = 2 ∧
    (exFacade.doRegister exPath "p2" true).1.loops.length = 1 ∧
    ((exFacade.doRegister exPath "p1" true).1.doRegister exPath "p2" true).1.loops.get? 0
      = some { path := exPath, js := "p1", refresh := true } ∧
    (cycle false ((exFacade.doRegister exPath "p1" true).1.doRegister exPath "p2" true).1
        { path := exPath, js := "p1", refresh := true }).1.log
      = [Event.set exPath "p1" { TTL := 60 }] ∧
    ((exFacade.doRegister exPath "p2" true).1.doRegister exPath "p2" true).1.loops
      ≠ (exFacade.doRegister exPath "p2" true).1.loops := by
  decide

/-! ## Manual control: the read-modify-write of `SetGroupAndDisable` -/

theorem isFind_iff (group : String) (groups : List String) :
    isFind group groups = true ↔ group ∈ groups := by
  induction groups with
  | nil => simp [isFind]
  | cons x t ih =>
    by_cases h : x = group
    · simp [isFind, h]
    · have h2 : ¬ group = x := fun e => h e.symm
      simp [isFind, h, h2, ih]

theorem updateManual_groups (manual : ManualData) (group : String) (disable : Bool) :
    (updateManual manual group disable).groups
      = if group ∈ manual.groups then manual.groups else manual.groups ++ [group] := by
  unfold updateManual ManualData.groups
  cases hc : manual.Ctrl with
  | none => simp [isFind]
  | some c =>
    by_cases h : group ∈ c.Groups
    · simp [h, (isFind_iff group c.Groups).2 h]
    · have hf : isFind group c.Groups = false := by
        cases hb : isFind group c.Groups with
        | false => rfl
        | true => exact absurd ((isFind_iff group c.Groups).1 hb) h
      simp [h, hf]

theorem updateManual_weight (manual : ManualData) (group : String) (disable : Bool) :
    (updateManual manual group disable).weight
      = if manual.weight = 0 then 100 else manual.weight := by
  unfold updateManual ManualData.weight
  cases hc : manual.Ctrl with
  | none => simp
  | some c => simp

theorem updateManual_disable (manual : ManualData) (group : String) (disable : Bool) :
    ∃ c, (updateManual manual group disable).Ctrl = some c ∧ c.Disable = disable := by
  unfold updateManual
  exact ⟨_, rfl, rfl⟩

theorem updateManual_idem (manual : ManualData) (group : String) (disable : Bool) :
    updateManual (updateManual manual group disable) group disable
      = updateManual manual group disable := by
  have hg := updateManual_groups manual group disable
  have hw := updateManual_weight manual group disable
  have hmem : group ∈ (updateManual manual group disable).groups := by
    rw [hg]; split <;> simp [*]
  have hw0 : (updateManual manual group disable).weight ≠ 0 := by
    rw [hw]; split <;> simp [*]
  obtain ⟨c, hc, hd⟩ := updateManual_disable manual group disable
  generalize updateManual manual group disable = w at hmem hw0 hc
  obtain ⟨ctrl⟩ := w
  simp only at hc
  subst hc
  simp only [ManualData.groups, ManualData.weight] at hmem hw0
  simp [updateManual, (isFind_iff group c.Groups).2 hmem, hw0, ← hd]

theorem getValueFromEtcd_log (m : ServBaseV2) (fault : Bool) (path : String) :
    (m.getValueFromEtcd fault path).1 = { m with log := m.log ++ [Event.get path] } := by
  unfold ServBaseV2.getValueFromEtcd
  split <;> rfl

theorem getValueFromEtcd_unfaulted (m : ServBaseV2) :
    (m.getValueFromEtcd false m.manualPath).2.1 = m.storedValue := by
  unfold ServBaseV2.getValueFromEtcd KeysAPI.Get ServBaseV2.storedValue
  cases h : m.etcdClient.lookup m.now m.manualPath <;> simp

theorem getValueFromEtcd_error (m : ServBaseV2) (fault : Bool) (path : String) (err : Err)
    (h : (m.getValueFromEtcd fault path).2.2 = some err) :
    (m.getValueFromEtcd fault path).2.1 = "" := by
  unfold ServBaseV2.getValueFromEtcd at h ⊢
  split
  · rfl
  · rename_i n hn
    rw [hn] at h
    simp at h

theorem length_pos_iff (value : String) : 0 < value.length ↔ value ≠ "" := by
  rw [String.length, List.length_pos]
  constructor
  · intro h e; subst e; exact h rfl
  · intro h e; apply h; cases value; simp_all

/-- What `SetGroupAndDisable` does once the value it read and its decoding are known: the call
goes on to the Set when the value is empty or decodes. -/
theorem setGroupAndDisable_proceeds (json : Json) (m : ServBaseV2) (getFault setFault : Bool)
    (group : String) (disable : Bool) (newValue : String)
    (hdec : (m.getValueFromEtcd getFault m.manualPath).2.1 ≠ "" →
      ∃ r, json.Unmarshal (m.getValueFromEtcd getFault m.manualPath).2.1 = Except.ok r)
    (hM : json.Marshal (updateManual
      (decoded json (m.getValueFromEtcd getFault m.manualPath).2.1).1 group disable)
        = Except.ok newValue) :
    m.SetGroupAndDisable json getFault setFault group disable
      = ({ m with log := m.log ++ [Event.get m.manualPath] } : ServBaseV2).setValueToEtcd
          setFault m.manualPath newValue {} := by
  have hcond : ¬ (0 < (m.getValueFromEtcd getFault m.manualPath).2.1.length ∧
      (decoded json (m.getValueFromEtcd getFault m.manualPath).2.1).2.isSome = true) := by
    rintro ⟨hlen, hsome⟩
    obtain ⟨r, hr⟩ := hdec ((length_pos_iff _).1 hlen)
    simp [decoded, hr] at hsome
  unfold ServBaseV2.SetGroupAndDisable
  simp only [hcond, if_false, hM, getValueFromEtcd_log]

theorem set_default (c : KeysAPI) (now : Nat) (key value : String) :
    c.Set now false key value {} = (c.put key { Value := value, Expiration := none }, none) := by
  simp [KeysAPI.Set, expiry]

theorem decoded_of_ok (json : Json) (value : String) (r : ManualData)
    (h : json.Unmarshal value = Except.ok r) : decoded json value = (r, none) := by
  simp [decoded, h]

theorem decoded_of_error (json : Json) (value : String) (err : Err)
    (h : json.Unmarshal value = Except.error err) :
    decoded json value = ({ Ctrl := none }, some err) := by
  simp [decoded, h]

/-- The call on a facade whose Get is not faulted and whose stored value is empty or decodes. -/
theorem setGroupAndDisable_of_read (json : Json) (m : ServBaseV2) (setFault : Bool)
    (group : String) (disable : Bool) (newValue : String)
    (hdec : m.storedValue ≠ "" → ∃ r, json.Unmarshal m.storedValue = Except.ok r)
    (hM : json.Marshal (updateManual (decoded json m.storedValue).1 group disable)
      = Except.ok newValue) :
    m.SetGroupAndDisable json false setFault group disable
      = ({ m with log := m.log ++ [Event.get m.manualPath] } : ServBaseV2).setValueToEtcd
          setFault m.manualPath newValue {} := by
  apply setGroupAndDisable_proceeds
  · rw [getValueFromEtcd_unfaulted]; exact hdec
  · rw [getValueFromEtcd_unfaulted]; exact hM

theorem setValueToEtcd_log (m : ServBaseV2) (fault : Bool) (path value : String)
    (opts : SetOptions) :
    (m.setValueToEtcd fault path value opts).1.log = m.log ++ [Event.set path value opts] := rfl

/-- C7, as the code has it. When the Get of the manual-control path is not faulted and the
stored value is empty, absent or decodes to a record whose group list has no duplicates, the
call issues one Get and one Set of the encoding of the updated record; the group list of that
record has no duplicates and contains the group; it is the stored list when the group is in it
and the stored list with the group appended at the end otherwise. Updating the written record
again changes nothing, and a second call on the store the first one left issues a Set of the
same value. -/
theorem setGroupAndDisable_groups (json : Json) (m : ServBaseV2) (setFault : Bool)
    (group : String) (disable : Bool) (newValue : String)
    (hdec : m.storedValue ≠ "" → ∃ r, json.Unmarshal m.storedValue = Except.ok r)
    (hnd : (decoded json m.storedValue).1.groups.Nodup)
    (hM : json.Marshal (updateManual (decoded json m.storedValue).1 group disable)
      = Except.ok newValue) :
    (m.SetGroupAndDisable json false setFault group disable).1.log
      = m.log ++ [Event.get m.manualPath, Event.set m.manualPath newValue {}] ∧
    (updateManual (decoded json m.storedValue).1 group disable).groups.Nodup ∧
    group ∈ (updateManual (decoded json m.storedValue).1 group disable).groups ∧
    (group ∈ (decoded json m.storedValue).1.groups →
      (updateManual (decoded json m.storedValue).1 group disable).groups
        = (decoded json m.storedValue).1.groups) ∧
    (group ∉ (decoded json m.storedValue).1.groups →
      (updateManual (decoded json m.storedValue).1 group disable).groups
        = (decoded json m.storedValue).1.groups ++ [group]) ∧
    updateManual (updateManual (decoded json m.storedValue).1 group disable) group disable
      = updateManual (decoded json m.storedValue).1 group disable ∧
    (json.Unmarshal newValue
        = Except.ok (updateManual (decoded json m.storedValue).1 group disable) →
      ∀ setFault2,
        ((m.SetGroupAndDisable json false false group disable).1.SetGroupAndDisable json false
          setFault2 group disable).1.log
        = (m.SetGroupAndDisable json false false group disable).1.log
            ++ [Event.get m.manualPath, Event.set m.manualPath newValue {}]) := by
  have hg := updateManual_groups (decoded json m.storedValue).1 group disable
  refine ⟨?_, ?_, ?_, ?_, ?_, updateManual_idem _ _ _, ?_⟩
  · rw [setGroupAndDisable_of_read json m setFault group disable newValue hdec hM,
      setValueToEtcd_log]
    simp
  · rw [hg]
    split
    · exact hnd
    · rename_i h
      exact List.Nodup.append hnd (List.nodup_singleton group) (by simpa using h)
  · rw [hg]; split <;> simp [*]
  · intro h; rw [hg, if_pos h]
  · intro h; rw [hg, if_neg h]
  · intro hU setFault2
    have h1 := setGroupAndDisable_of_read json m false group disable newValue hdec hM
    have hpath : (m.SetGroupAndDisable json false false group disable).1.manualPath
        = m.manualPath := by rw [h1]; rfl
    have hstored : (m.SetGroupAndDisable json false false group disable).1.storedValue
        = newValue := by
      rw [h1]
      simp [ServBaseV2.storedValue, ServBaseV2.setValueToEtcd, set_default,
        ServBaseV2.manualPath, KeysAPI.lookup, KeysAPI.put, Node.alive]
    have h2 := setGroupAndDisable_of_read json
      (m.SetGroupAndDisable json false false group disable).1 setFault2 group disable newValue
      (by intro _; rw [hstored]; exact ⟨_, hU⟩)
      (by rw [hstored, decoded_of_ok json _ _ hU, updateManual_idem]; exact hM)
    rw [h2, setValueToEtcd_log, hpath]
    simp

/-- Witness for C7: group `c` is appended to the stored groups `a`, `b`; a second call writes
the same value. -/
theorem setGroupAndDisable_groups_witness :
    (exManual.SetGroupAndDisable exJson false false "c" true).1.log
      = [Event.get "/roc/dist2/groupA/svcB/7/manual",
         Event.set "/roc/dist2/groupA/svcB/7/manual" exTextABC {}] ∧
    (updateManual (decoded exJson exManual.storedValue).1 "c" true).groups = ["a", "b", "c"] ∧
    ((exManual.SetGroupAndDisable exJson false false "c" true).1.SetGroupAndDisable exJson false
        false "c" true).1.log
      = (exManual.SetGroupAndDisable exJson false false "c" true).1.log
          ++ [Event.get exManual.manualPath, Event.set exManual.manualPath exTextABC {}] :=
  have h := setGroupAndDisable_groups exJson exManual false "c" true exTextABC
    (fun _ => ⟨exRecAB, rfl⟩) (by decide) rfl
  ⟨by decide, by decide, h.2.2.2.2.2.2 rfl false⟩

/-- Counterexample to C7 as stated: the stored record has groups `a`, `b` (no duplicates) and
the call is for group `b`, which is in the list, but the Get is faulted: the record written has
the group list `b` alone, not the stored list. -/
theorem setGroupAndDisable_drops_groups :
    exManual.storedValue = exTextAB ∧
    (decoded exJson exTextAB).1.groups = ["a", "b"] ∧
    (exManual.SetGroupAndDisable exJson true false "b" true).1.log
      = [Event.get "/roc/dist2/groupA/svcB/7/manual",
         Event.set "/roc/dist2/groupA/svcB/7/manual" exTextB {}] ∧
    (decoded exJson exTextB).1.groups = ["b"] ∧
    (decoded exJson exTextB).1.groups ≠ (decoded exJson exManual.storedValue).1.groups ∧
    (exManual.SetGroupAndDisable exJson true false "b" true).1.etcdClient.lookup 0
        "/roc/dist2/groupA/svcB/7/manual" = some { Value := exTextB, Expiration := none } := by
  decide

/-- C8, as the code has it. When the Get of the manual-control path is not faulted and the
stored value is empty, absent or decodes, the call issues a Set of the encoding of the updated
record, whose weight is 100 when nothing is stored, when the stored record has no `Ctrl` or when
its weight is 0, and the stored weight otherwise; it is never 0. -/
theorem setGroupAndDisable_weight (json : Json) (m : ServBaseV2) (setFault : Bool)
    (group : String) (disable : Bool) (newValue : String)
    (hdec : m.storedValue ≠ "" → ∃ r, json.Unmarshal m.storedValue = Except.ok r)
    (hM : json.Marshal (updateManual (decoded json m.storedValue).1 group disable)
      = Except.ok newValue) :
    (m.SetGroupAndDisable json false setFault group disable).1.log
      = m.log ++ [Event.get m.manualPath, Event.set m.manualPath newValue {}] ∧
    (m.etcdClient.lookup m.now m.manualPath = none →
      (∃ err, json.Unmarshal "" = Except.error err) →
      (updateManual (decoded json m.storedValue).1 group disable).weight = 100) ∧
    ((decoded json m.storedValue).1.Ctrl = none →
      (updateManual (decoded json m.storedValue).1 group disable).weight = 100) ∧
    ((decoded json m.storedValue).1.weight = 0 →
      (updateManual (decoded json m.storedValue).1 group disable).weight = 100) ∧
    ((decoded json m.storedValue).1.weight ≠ 0 →
      (updateManual (decoded json m.storedValue).1 group disable).weight
        = (decoded json m.storedValue).1.weight) ∧
    (updateManual (decoded json m.storedValue).1 group disable).weight ≠ 0 := by
  have hw := updateManual_weight (decoded json m.storedValue).1 group disable
  refine ⟨?_, ?_, ?_, ?_, ?_, ?_⟩
  · rw [setGroupAndDisable_of_read json m setFault group disable newValue hdec hM,
      setValueToEtcd_log]
    simp
  · rintro hnone ⟨err, herr⟩
    have hs : m.storedValue = "" := by simp [ServBaseV2.storedValue, hnone]
    rw [hw, hs, decoded_of_error json "" err herr]
    simp [ManualData.weight]
  · intro hc
    rw [hw]
    simp [ManualData.weight, hc]
  · intro h0; rw [hw, if_pos h0]
  · intro h0; rw [hw, if_neg h0]
  · rw [hw]; split <;> simp [*]

/-- Witness for C8: the stored weight 50 is kept. -/
theorem setGroupAndDisable_weight_witness :
    (exManual.SetGroupAndDisable exJson false false "c" true).1.log
      = exManual.log ++ [Event.get exManual.manualPath,
          Event.set exManual.manualPath exTextABC {}] ∧
    (updateManual (decoded exJson exManual.storedValue).1 "c" true).weight = 50 :=
  have h := setGroupAndDisable_weight exJson exManual false "c" true exTextABC
    (fun _ => ⟨exRecAB, rfl⟩) rfl
  ⟨h.1, by decide⟩

/-- Counterexample to C8 as stated: the stored record has weight 50, the Get is faulted, and
the record written has weight 100. -/
theorem setGroupAndDisable_resets_weight :
    exManual.storedValue = exTextAB ∧
    (decoded exJson exTextAB).1.weight = 50 ∧
    (exManual.SetGroupAndDisable exJson true false "b" true).1.log
      = [Event.get "/roc/dist2/groupA/svcB/7/manual",
         Event.set "/roc/dist2/groupA/svcB/7/manual" exTextB {}] ∧
    (decoded exJson exTextB).1.weight = 100 ∧
    (decoded exJson exTextB).1.weight ≠ (decoded exJson exManual.storedValue).1.weight := by
  decide

/-- C9, as the code has it. When the Get of the manual-control path is not faulted and returns
a node: if its value is not empty and does not decode, the call returns the decode error right
after the Get, with no Set and the store as it was; if its value is empty, the decode error is
dropped and the call goes on to the Set of the encoding of the update of the empty record. -/
theorem setGroupAndDisable_decode_error (json : Json) (m : ServBaseV2) (setFault : Bool)
    (group : String) (disable : Bool) (n : Node)
    (hn : m.etcdClient.lookup m.now m.manualPath = some n) :
    (∀ err, n.Value ≠ "" → json.Unmarshal n.Value = Except.error err →
      m.SetGroupAndDisable json false setFault group disable
        = ({ m with log := m.log ++ [Event.get m.manualPath] }, some err)) ∧
    (∀ err newValue, n.Value = "" → json.Unmarshal "" = Except.error err →
      json.Marshal (updateManual { Ctrl := none } group disable) = Except.ok newValue →
      m.SetGroupAndDisable json false setFault group disable
        = ({ m with log := m.log ++ [Event.get m.manualPath] } : ServBaseV2).setValueToEtcd
            setFault m.manualPath newValue {}) := by
  have hs : m.storedValue = n.Value := by simp [ServBaseV2.storedValue, hn]
  refine ⟨?_, ?_⟩
  · intro err hne hU
    have hv := getValueFromEtcd_unfaulted m
    rw [hs] at hv
    have hcond : 0 < (m.getValueFromEtcd false m.manualPath).2.1.length ∧
        (decoded json (m.getValueFromEtcd false m.manualPath).2.1).2.isSome = true := by
      rw [hv, decoded_of_error json _ err hU]
      exact ⟨(length_pos_iff _).2 hne, rfl⟩
    unfold ServBaseV2.SetGroupAndDisable
    simp only [hcond, and_self, if_true, getValueFromEtcd_log]
    rw [hv, decoded_of_error json _ err hU]
  · intro err newValue he hU hM
    apply setGroupAndDisable_of_read
    · intro hne; rw [hs, he] at hne; exact absurd rfl hne
    · rw [hs, he, decoded_of_error json _ err hU]; exact hM

/-- Witness for C9: the stored text is not JSON; the call returns the decode error after the
Get and writes nothing. -/
theorem setGroupAndDisable_decode_error_witness :
    exGarbled.etcdClient.lookup exGarbled.now exGarbled.manualPath
      = some { Value := "not json", Expiration := none } ∧
    exGarbled.SetGroupAndDisable exJson false false "b" true
      = ({ exGarbled with log := exGarbled.log ++ [Event.get exGarbled.manualPath] },
          some (Err.json "invalid character")) :=
  ⟨by decide,
    (setGroupAndDisable_decode_error exJson exGarbled false "b" true
      { Value := "not json", Expiration := none } (by decide)).1
      (Err.json "invalid character") (by decide) rfl⟩

/-- Counterexample to C9 as stated: a non-empty text that does not decode is stored, the Get is
faulted, and the call returns no error and overwrites the stored text. -/
theorem setGroupAndDisable_overwrites_garbled :
    exGarbled.storedValue = "not json" ∧
    (decoded exJson "not json").2 = some (Err.json "invalid character") ∧
    (exGarbled.SetGroupAndDisable exJson true false "b" true).2 = none ∧
    (exGarbled.SetGroupAndDisable exJson true false "b" true).2
      ≠ (decoded exJson exGarbled.storedValue).2 ∧
    (exGarbled.SetGroupAndDisable exJson true false "b" true).1.log
      = [Event.get "/roc/dist2/groupA/svcB/7/manual",
         Event.set "/roc/dist2/groupA/svcB/7/manual" exTextB {}] ∧
    (exGarbled.SetGroupAndDisable exJson true false "b" true).1.storedValue = exTextB := by
  decide

/-- C10. When the Get of the manual-control path returns an error, because the request is
faulted (whatever the store holds) or because no node is there, the call does not return that
error: it issues the Get and then a Set with default options (no condition on the previous
state, no TTL, no refresh) of the encoding of the record with the group alone, weight 100 and
the disable flag, and returns what that Set returns. -/
theorem setGroupAndDisable_read_error (json : Json) (m : ServBaseV2) (getFault setFault : Bool)
    (group : String) (disable : Bool) (decodeErr : Err) (newValue : String)
    (hget : getFault = true ∨ m.etcdClient.lookup m.now m.manualPath = none)
    (hU : json.Unmarshal "" = Except.error decodeErr)
    (hM : json.Marshal { Ctrl := some { Groups := [group], Weight := 100, Disable := disable } }
      = Except.ok newValue) :
    (∃ err, (m.getValueFromEtcd getFault m.manualPath).2.2 = some err) ∧
    m.SetGroupAndDisable json getFault setFault group disable
      = ({ m with
            etcdClient := (m.etcdClient.Set m.now setFault m.manualPath newValue {}).1,
            log := m.log ++ [Event.get m.manualPath, Event.set m.manualPath newValue {}] },
          (m.etcdClient.Set m.now setFault m.manualPath newValue {}).2) ∧
    ({} : SetOptions) = { PrevExist := PrevExistType.PrevIgnore, TTL := 0, Refresh := false } := by
  have herr : ∃ err, (m.getValueFromEtcd getFault m.manualPath).2.2 = some err := by
    rcases hget with h | h
    · subst h
      exact ⟨Err.unavailable, by simp [ServBaseV2.getValueFromEtcd, KeysAPI.Get]⟩
    · cases getFault
      · exact ⟨Err.keyNotFound, by simp [ServBaseV2.getValueFromEtcd, KeysAPI.Get, h]⟩
      · exact ⟨Err.unavailable, by simp [ServBaseV2.getValueFromEtcd, KeysAPI.Get]⟩
  obtain ⟨err, he⟩ := herr
  have hv := getValueFromEtcd_error m getFault m.manualPath err he
  have hup : updateManual { Ctrl := none } group disable
      = { Ctrl := some { Groups := [group], Weight := 100, Disable := disable } } := by
    simp [updateManual, isFind]
  refine ⟨⟨err, he⟩, ?_, rfl⟩
  rw [setGroupAndDisable_proceeds json m getFault setFault group disable newValue
    (by intro hne; exact absurd hv hne)
    (by rw [hv, decoded_of_error json _ decodeErr hU, hup]; exact hM)]
  simp [ServBaseV2.setValueToEtcd]

/-- Witness for C10: a record is stored, the Get is faulted, the call writes the record with
group `b` alone and weight 100. -/
theorem setGroupAndDisable_read_error_witness :
    exManual.storedValue = exTextAB ∧
    (exManual.SetGroupAndDisable exJson true false "b" true).2
      = (exManual.etcdClient.Set exManual.now false exManual.manualPath exTextB {}).2 ∧
    (exManual.SetGroupAndDisable exJson true false "b" true).1.log
      = [Event.get "/roc/dist2/groupA/svcB/7/manual",
         Event.set "/roc/dist2/groupA/svcB/7/manual" exTextB {}] :=
  have h := setGroupAndDisable_read_error exJson exManual true false "b" true
    (Err.json "unexpected end of JSON input") exTextB (Or.inl rfl) rfl rfl
  ⟨by decide, by rw [h.2.1], by decide⟩

end Rocserv
